import Mathlib

/-! LogicMonitor logs exporter: payload assembly, delivery and construction.

A shallow embedding of `exporter/logicmonitorexporter/logs_exporter.go`.

* Go strings are modelled by their sequence of code points (`List Char`), i.e. the
  embedding covers the strings that are valid UTF-8.
* `pcommon.Map` is the ordered key/value slice it is in pdata; `pcommon.Value` is a tagged
  union.
* The package-level variables `resourceMapperMap`, `resourceMapperKey` and `metadataMap`
  are threaded explicitly as a `Globals` record.
* `strconv.Quote` and `json.Marshal` are library code: they are modelled after their
  documented behaviour.
* The HTTP client, `json.Unmarshal` and `url.Parse` are taken as given: `export` and
  `newLogsExporter` are stated for every behaviour of theirs. Requests issued and error
  entries logged are recorded in a `World`.
* Two concurrent calls are stepped on the shared `Globals` in the two halves of
  `createPayload`, in the order of a schedule.
-/

namespace LMExporter

/-- A Go `string`, as its sequence of code points. -/
abbrev Str := List Char

/-! ## pdata model -/

/-- The tagged union `pcommon.Value`. Only the string variant carries data that the
exporter reads; a double is kept as its bit pattern. -/
inductive Value where
  | empty : Value
  | str (s : Str) : Value
  | int (i : Int) : Value
  | double (bits : Nat) : Value
  | bool (b : Bool) : Value
  | map (kvs : List (Str × Value)) : Value
  | slice (vs : List Value) : Value
  | bytes (bs : List Nat) : Value

instance : Inhabited Value := ⟨Value.empty⟩

/-- The method `Value.StringVal`: the string carried by a string value, the empty string for every
other type. -/
def Value.StringVal : Value → Str
  | Value.str s => s
  | _ => []

/-- The type `pcommon.Map`: an ordered slice of key/value pairs. -/
abbrev PMap := List (Str × Value)

/-- The method `Map.Get`, reduced to its presence flag: is there an entry under `k`. -/
def PMap.has (m : PMap) (k : Str) : Bool :=
  m.any (fun kv => decide (kv.1 = k))

/-- The method `Map.Insert` of pdata, which its documentation describes as: "Insert adds
the Value to the map when the key does not exist. No action is applied to the map where
the key already exists." (The overwriting variant of the same API is `Upsert`, which the
exporter does not call.) -/
def PMap.Insert (m : PMap) (k : Str) (v : Value) : PMap :=
  if m.has k then m else m ++ [(k, v)]

/-- The method `Map.Range f` for a callback that always returns `true`: visits every entry in slice
order, threading the state the callback mutates. -/
def PMap.Range {σ : Type} (m : PMap) (f : Str → Value → σ → σ) (s : σ) : σ :=
  m.foldl (fun acc kv => f kv.1 kv.2 acc) s

/-- A log record: body and attributes. -/
structure LogRecord where
  body : Value
  attributes : PMap

/-- A scope group: its records. -/
structure ScopeLogs where
  logRecords : List LogRecord

/-- A resource group: the resource attributes and the scope groups. -/
structure ResourceLogs where
  resource : PMap
  scopeLogs : List ScopeLogs

/-- The batch `pdata.Logs`. -/
abbrev Logs := List ResourceLogs

/-! ## Go maps of strings -/

/-- A Go `map[string]string`, as an association list with at most one entry per key. -/
abbrev GoMap := List (Str × Str)

/-- The statement `m[k] = v`. -/
def GoMap.set : GoMap → Str → Str → GoMap
  | [], k, v => [(k, v)]
  | (k', v') :: rest, k, v =>
    if k' = k then (k, v) :: rest else (k', v') :: GoMap.set rest k v

/-- The expression `m[k]`: the zero value `""` when the key is absent. -/
def GoMap.get : GoMap → Str → Str
  | [], _ => []
  | (k', v') :: rest, k => if k' = k then v' else GoMap.get rest k

/-- The two-valued lookup `v, ok := m[k]`. -/
def GoMap.find : GoMap → Str → Option Str
  | [], _ => none
  | (k', v') :: rest, k => if k' = k then some v' else GoMap.find rest k

/-! ## Constants and package-level state -/

def hostname : Str := "hostname".toList

def hostnameProperty : Str := "system.hostname".toList

/-- The key written at line 120. -/
def logsourceKey : Str := "_lm.logsource_type".toList

/-- The value written at line 120. -/
def logsourceValue : Str := "logfile".toList

/-- The package-level variables of lines 40-42. -/
structure Globals where
  resourceMapperMap : GoMap
  resourceMapperKey : Str
  metadataMap : GoMap

/-- The state at process start: two empty maps and the empty key. -/
def Globals.init : Globals := ⟨[], [], []⟩

/-- The callback of lines 149-157 (its `true` result is folded into `PMap.Range`). -/
def rangeOverAttributesMap (key : Str) (value : Value) (g : Globals) : Globals :=
  let g1 : Globals :=
    if key = hostname then
      { g with
        resourceMapperKey := hostnameProperty
        resourceMapperMap := g.resourceMapperMap.set hostnameProperty value.StringVal }
    else g
  { g1 with metadataMap := g1.metadataMap.set key value.StringVal }

/-! ## Library code: `strconv.Quote` -/

/-- What the library functions consult and the source does not contain: the Unicode
tables behind `strconv.IsPrint` for code points above U+00FF, and whether `json.Marshal`
reports an error on a given map (with `encoding/json` a `map[string]string` never does). -/
structure Lib where
  printTable : Char → Bool
  marshalErr : GoMap → Option Str

/-- The library as it behaves on `map[string]string`: marshalling never reports an error. -/
def Lib.std (printTable : Char → Bool) : Lib := ⟨printTable, fun _ => none⟩

/-- The digit table `lowerhex` of package strconv, indexed by a nibble. -/
def lowerhex (n : Nat) : Char := "0123456789abcdef".toList.getD (n % 16) '0'

/-- The function `strconv.IsPrint`: closed form on Latin-1 (U+0020..U+007E, and
U+00A1..U+00FF but the soft hyphen U+00AD), the Unicode tables above it. -/
def IsPrint (lib : Lib) (r : Char) : Bool :=
  if r.toNat ≤ 0xFF then
    if 0x20 ≤ r.toNat ∧ r.toNat ≤ 0x7E then true
    else if 0xA1 ≤ r.toNat ∧ r.toNat ≤ 0xFF then decide (r.toNat ≠ 0xAD)
    else false
  else lib.printTable r

/-- The function `appendEscapedRune` of package strconv for the double quote, neither ASCII-only nor
graphic-only, on a valid rune: quote and backslash are backslashed, printable runes are
copied, the rest become Go escapes. -/
def appendEscapedRune (lib : Lib) (r : Char) : Str :=
  if r = '"' ∨ r = '\\' then ['\\', r]
  else if IsPrint lib r then [r]
  else if r.toNat = 7 then ['\\', 'a']
  else if r.toNat = 8 then ['\\', 'b']
  else if r.toNat = 12 then ['\\', 'f']
  else if r.toNat = 10 then ['\\', 'n']
  else if r.toNat = 13 then ['\\', 'r']
  else if r.toNat = 9 then ['\\', 't']
  else if r.toNat = 11 then ['\\', 'v']
  else if r.toNat < 0x20 ∨ r.toNat = 0x7f then
    ['\\', 'x', lowerhex (r.toNat / 16), lowerhex r.toNat]
  else if r.toNat < 0x10000 then
    ['\\', 'u', lowerhex (r.toNat / 4096), lowerhex (r.toNat / 256),
      lowerhex (r.toNat / 16), lowerhex r.toNat]
  else
    ['\\', 'U', lowerhex (r.toNat / 268435456), lowerhex (r.toNat / 16777216),
      lowerhex (r.toNat / 1048576), lowerhex (r.toNat / 65536),
      lowerhex (r.toNat / 4096), lowerhex (r.toNat / 256),
      lowerhex (r.toNat / 16), lowerhex r.toNat]

/-- The escaped runes of a string, without the enclosing quotes. -/
def quoteBody (lib : Lib) : Str → Str
  | [] => []
  | r :: rest => appendEscapedRune lib r ++ quoteBody lib rest

/-- The function `strconv.Quote`: a double-quoted Go string literal. -/
def Quote (lib : Lib) (s : Str) : Str :=
  '"' :: (quoteBody lib s ++ ['"'])

/-- The slice expression `s[1 : len(s)-1]`, for a string of at least two one-byte ends. -/
def trimEnds (s : Str) : Str := (s.drop 1).dropLast

/-! ## Library code: `json.Marshal` on a `map[string]string` -/

/-- Byte-wise string order, which on valid UTF-8 is the order of code points. -/
def strLt : Str → Str → Bool
  | [], [] => false
  | [], _ :: _ => true
  | _ :: _, [] => false
  | a :: as, b :: bs =>
    if a.toNat < b.toNat then true
    else if b.toNat < a.toNat then false
    else strLt as bs

/-- Insertion of an entry into a key-sorted entry list. -/
def insertByKey (kv : Str × Str) : GoMap → GoMap
  | [] => [kv]
  | e :: rest => if strLt kv.1 e.1 then kv :: e :: rest else e :: insertByKey kv rest

/-- The entries of a map in the key order `encoding/json` emits them. -/
def sortByKey : GoMap → GoMap
  | [] => []
  | kv :: rest => insertByKey kv (sortByKey rest)

/-- One rune of a string as `encoding/json` writes it with HTML escaping on: short
escapes for quote, backslash, newline, return and tab, `\u00XX` for the other control
characters and for `<`, `>`, `&`, `\u202X` for the two line separators. -/
def jsonEscapeRune (c : Char) : Str :=
  if c = '"' then ['\\', '"']
  else if c = '\\' then ['\\', '\\']
  else if c.toNat = 10 then ['\\', 'n']
  else if c.toNat = 13 then ['\\', 'r']
  else if c.toNat = 9 then ['\\', 't']
  else if c.toNat < 0x20 ∨ c = '<' ∨ c = '>' ∨ c = '&' then
    ['\\', 'u', '0', '0', lowerhex (c.toNat / 16), lowerhex c.toNat]
  else if c.toNat = 0x2028 ∨ c.toNat = 0x2029 then
    ['\\', 'u', '2', '0', '2', lowerhex c.toNat]
  else [c]

/-- The escaped runes of a string as `encoding/json` writes them. -/
def jsonEscapeBody : Str → Str
  | [] => []
  | c :: rest => jsonEscapeRune c ++ jsonEscapeBody rest

/-- A string as a JSON string literal, quotes included. -/
def jsonEncodeString (s : Str) : Str :=
  '"' :: (jsonEscapeBody s ++ ['"'])

/-- One member of the object: `"key":"value"`. -/
def jsonEncodeEntry (kv : Str × Str) : Str :=
  jsonEncodeString kv.1 ++ ':' :: jsonEncodeString kv.2

/-- The object `encoding/json` writes for a map: members in key order, separated by
commas, no white space. -/
def jsonEncodeMap (m : GoMap) : Str :=
  '{' :: ((",".toList.intercalate ((sortByKey m).map jsonEncodeEntry)) ++ ['}'])

/-- The function `json.Marshal` applied to a `map[string]string`. -/
def Marshal (lib : Lib) (m : GoMap) : Except Str Str :=
  match lib.marshalErr m with
  | some e => Except.error e
  | none => Except.ok (jsonEncodeMap m)

/-! ## The exporter -/

/-- The fragment assembled at lines 132-138 from the escaped message, the identity pair
and the metadata splice. -/
def tempPayload (msg key val metadataString : Str) : Str :=
  "\x7b\n\t\t\t\"msg\": \"".toList ++ msg ++
  "\",\n\t\t\t\"_lm.resourceId\": \x7b\n\t\t\t\t\"".toList ++ key ++
  "\": \"".toList ++ val ++
  "\"\n\t\t\t\x7d".toList ++ metadataString ++ "\n".toList ++ "\x7d".toList

/-- Lines 122-131: the metadata splice, or `none` when `json.Marshal` reports an error. -/
def metadataSplice (lib : Lib) (metadataMap : GoMap) : Option Str :=
  if metadataMap.length ≠ 0 then
    match Marshal lib metadataMap with
    | Except.error _ => none
    | Except.ok metadataByte => some (",\n".toList ++ trimEnds metadataByte)
  else some []

/-- Lines 114, 120 and 121: the metadata map is replaced by a fresh one, receives the
source-classification entry, and the callback runs over the attributes. -/
def scanAttributes (attributesMap : PMap) (g : Globals) : Globals :=
  let g0 : Globals := { g with metadataMap := [] }
  let g1 : Globals := { g0 with metadataMap := g0.metadataMap.set logsourceKey logsourceValue }
  attributesMap.Range rangeOverAttributesMap g1

/-- The method `createPayload` (lines 113-146): returns the new payload and the package state it
leaves behind. On a marshalling error it prints and returns the empty string. -/
def createPayload (lib : Lib) (msg payload : Str) (attributesMap : PMap) (g : Globals) :
    Str × Globals :=
  let msg1 := trimEnds (Quote lib msg)
  let g2 := scanAttributes attributesMap g
  match metadataSplice lib g2.metadataMap with
  | none => ([], g2)
  | some metadataString =>
    let temp := tempPayload msg1 g2.resourceMapperKey
      (g2.resourceMapperMap.get g2.resourceMapperKey) metadataString
    (if payload ≠ [] then payload ++ ",\n".toList ++ temp else temp, g2)

/-- Lines 75-78: every resource attribute is `Insert`ed into the record's attributes. -/
def copyResourceAttributes (resource logAttributes : PMap) : PMap :=
  resource.Range (fun k v m => PMap.Insert m k v) logAttributes

/-- What a call of `PushLogData` produces: the payload handed to `export`, the package
state afterwards and the returned error. -/
structure PushResult where
  payload : Str
  globals : Globals
  err : Option Str

/-- The method `PushLogData` (lines 63-87): the three nested loops, then the bracket wrapping; the
returned error is always `nil`. -/
def PushLogData (lib : Lib) (lg : Logs) (g : Globals) : PushResult :=
  let acc := lg.foldl (fun acc resourceLog =>
    resourceLog.scopeLogs.foldl (fun acc libraryLog =>
      libraryLog.logRecords.foldl (fun acc log =>
        createPayload lib log.body.StringVal acc.1
          (copyResourceAttributes resourceLog.resource log.attributes) acc.2)
        acc) acc) (([] : Str), g)
  ⟨"[\n".toList ++ acc.1 ++ "]\n".toList, acc.2, none⟩

/-! ## JSON, as RFC 8259 defines it

The reference side of the claims about validity: a recogniser of JSON texts and a decoder
of the content of a JSON string literal. -/

/-- The value of a hexadecimal digit. -/
def hexVal (c : Char) : Option Nat :=
  if '0'.toNat ≤ c.toNat ∧ c.toNat ≤ '9'.toNat then some (c.toNat - '0'.toNat)
  else if 'a'.toNat ≤ c.toNat ∧ c.toNat ≤ 'f'.toNat then some (c.toNat - 'a'.toNat + 10)
  else if 'A'.toNat ≤ c.toNat ∧ c.toNat ≤ 'F'.toNat then some (c.toNat - 'A'.toNat + 10)
  else none

/-- The value of four hexadecimal digits. -/
def hex4 (a b c d : Char) : Option Nat :=
  match hexVal a, hexVal b, hexVal c, hexVal d with
  | some x, some y, some z, some w => some (x * 4096 + y * 256 + z * 16 + w)
  | _, _, _, _ => none

/-- The character a one-letter JSON escape stands for. -/
def jsonSimpleEscape (c : Char) : Option Char :=
  if c = '"' then some '"'
  else if c = '\\' then some '\\'
  else if c = '/' then some '/'
  else if c = 'b' then some (Char.ofNat 8)
  else if c = 'f' then some (Char.ofNat 12)
  else if c = 'n' then some (Char.ofNat 10)
  else if c = 'r' then some (Char.ofNat 13)
  else if c = 't' then some (Char.ofNat 9)
  else none

/-- The replacement character written for an unpaired surrogate. -/
def replacementChar : Char := Char.ofNat 0xFFFD

/-- Decoder of the content of a JSON string literal (the text between the quotes), with a
pending high surrogate `hi` from a preceding `\uXXXX`. `none`: the text is not valid
string content (a bare quote, a control character, an escape JSON does not have). -/
def jsonDecodeFrom : Option Nat → Str → Option Str
  | hi, [] => some (if hi.isSome then [replacementChar] else [])
  | hi, '\\' :: 'u' :: a :: b :: c :: d :: rest =>
    match hex4 a b c d with
    | none => none
    | some n =>
      match hi with
      | some h =>
        if 0xDC00 ≤ n ∧ n < 0xE000 then
          (jsonDecodeFrom none rest).map
            (fun t => Char.ofNat (0x10000 + (h - 0xD800) * 1024 + (n - 0xDC00)) :: t)
        else if 0xD800 ≤ n ∧ n < 0xDC00 then
          (jsonDecodeFrom (some n) rest).map (fun t => replacementChar :: t)
        else
          (jsonDecodeFrom none rest).map (fun t => replacementChar :: Char.ofNat n :: t)
      | none =>
        if 0xD800 ≤ n ∧ n < 0xDC00 then jsonDecodeFrom (some n) rest
        else if 0xDC00 ≤ n ∧ n < 0xE000 then
          (jsonDecodeFrom none rest).map (fun t => replacementChar :: t)
        else (jsonDecodeFrom none rest).map (fun t => Char.ofNat n :: t)
  | hi, '\\' :: e :: rest =>
    match jsonSimpleEscape e with
    | none => none
    | some x =>
      (jsonDecodeFrom none rest).map
        (fun t => if hi.isSome then replacementChar :: x :: t else x :: t)
  | _, ['\\'] => none
  | hi, c :: rest =>
    if c = '"' ∨ c.toNat < 0x20 then none
    else
      (jsonDecodeFrom none rest).map
        (fun t => if hi.isSome then replacementChar :: c :: t else c :: t)

/-- JSON-decoding of string content: `some s` when the text is valid content of a JSON
string literal that denotes `s`. -/
def jsonDecodeString (t : Str) : Option Str := jsonDecodeFrom none t

/-- Skips JSON white space. -/
def skipWs : Str → Str
  | [] => []
  | c :: rest =>
    if c = ' ' ∨ c.toNat = 10 ∨ c.toNat = 13 ∨ c.toNat = 9 then skipWs rest else c :: rest

/-- Recognises the rest of a string literal after its opening quote; returns what follows
the closing quote. -/
def jsonStringTail : Str → Option Str
  | [] => none
  | '\\' :: 'u' :: a :: b :: c :: d :: rest =>
    if (hex4 a b c d).isSome then jsonStringTail rest else none
  | '\\' :: e :: rest =>
    if (jsonSimpleEscape e).isSome then jsonStringTail rest else none
  | ['\\'] => none
  | c :: rest =>
    if c = '"' then some rest
    else if c.toNat < 0x20 then none
    else jsonStringTail rest

/-- Is the character a decimal digit. -/
def isDigit (c : Char) : Bool := decide ('0'.toNat ≤ c.toNat ∧ c.toNat ≤ '9'.toNat)

/-- Drops a run of digits. -/
def skipDigits : Str → Str
  | [] => []
  | c :: rest => if isDigit c then skipDigits rest else c :: rest

/-- Recognises at least one digit, then a run of digits. -/
def jsonDigits1 : Str → Option Str
  | c :: rest => if isDigit c then some (skipDigits rest) else none
  | [] => none

/-- Recognises the optional exponent of a number. -/
def jsonExponent : Str → Option Str
  | c :: rest =>
    if c = 'e' ∨ c = 'E' then
      match rest with
      | s :: rest2 => if s = '+' ∨ s = '-' then jsonDigits1 rest2 else jsonDigits1 rest
      | [] => none
    else some (c :: rest)
  | [] => some []

/-- Recognises the optional fraction of a number, then the exponent. -/
def jsonFraction : Str → Option Str
  | c :: rest =>
    if c = '.' then (jsonDigits1 rest).bind jsonExponent else jsonExponent (c :: rest)
  | [] => some []

/-- Recognises the integer part of a number after its optional sign, then the rest. -/
def jsonInteger : Str → Option Str
  | c :: rest =>
    if c = '0' then jsonFraction rest
    else if isDigit c then jsonFraction (skipDigits rest)
    else none
  | [] => none

/-- Recognises a number. -/
def jsonNumber : Str → Option Str
  | c :: rest => if c = '-' then jsonInteger rest else jsonInteger (c :: rest)
  | [] => none

/-- Strips a fixed prefix. -/
def stripPrefix : Str → Str → Option Str
  | [], t => some t
  | _ :: _, [] => none
  | a :: as, b :: bs => if a = b then stripPrefix as bs else none

/-- The members of an object after the first white space, `fuel` bounding the number of
members: `string : value` separated by commas, closed by a brace. -/
def jsonMembers (value : Str → Option Str) : Nat → Str → Option Str
  | 0, _ => none
  | fuel + 1, t =>
    match skipWs t with
    | '"' :: r =>
      match jsonStringTail r with
      | none => none
      | some r1 =>
        match skipWs r1 with
        | ':' :: r2 =>
          match value r2 with
          | none => none
          | some r3 =>
            match skipWs r3 with
            | ',' :: r4 => jsonMembers value fuel r4
            | '}' :: r4 => some r4
            | _ => none
        | _ => none
    | _ => none

/-- The elements of an array, `fuel` bounding their number: values separated by commas,
closed by a bracket. -/
def jsonElements (value : Str → Option Str) : Nat → Str → Option Str
  | 0, _ => none
  | fuel + 1, t =>
    match value t with
    | none => none
    | some r =>
      match skipWs r with
      | ',' :: r1 => jsonElements value fuel r1
      | ']' :: r1 => some r1
      | _ => none

/-- Recognises one JSON value with leading white space, `fuel` bounding the nesting
depth; returns the text that follows it. -/
def jsonValue : Nat → Str → Option Str
  | 0, _ => none
  | fuel + 1, t =>
    match skipWs t with
    | '{' :: r =>
      match skipWs r with
      | '}' :: r1 => some r1
      | r1 => jsonMembers (jsonValue fuel) r1.length r1
    | '[' :: r =>
      match skipWs r with
      | ']' :: r1 => some r1
      | r1 => jsonElements (jsonValue fuel) r1.length r1
    | '"' :: r => jsonStringTail r
    | 't' :: r => stripPrefix "rue".toList r
    | 'f' :: r => stripPrefix "alse".toList r
    | 'n' :: r => stripPrefix "ull".toList r
    | c :: r => jsonNumber (c :: r)
    | [] => none

/-- Is the text a JSON document: one value, white space around it, nothing else. The
fuel is the length of the text, which bounds both nesting depth and member count. -/
def isValidJSON (t : Str) : Bool :=
  match jsonValue (t.length + 1) t with
  | some r => decide (skipWs r = [])
  | none => false

/-- Is the text a JSON document whose value is an array. -/
def isJSONArray (t : Str) : Bool :=
  isValidJSON t && (match skipWs t with
    | '[' :: _ => true
    | _ => false)

/-! ## Derived notions used to state the properties -/

/-- The records of a batch in traversal order (resource groups, then scope groups, then
records), each as the two arguments `createPayload` receives for it: the body's
`StringVal` and the attributes after the copy of the resource attributes. -/
def flattenRecords (lg : Logs) : List (Str × PMap) :=
  lg.flatMap (fun rl => rl.scopeLogs.flatMap (fun sl => sl.logRecords.map (fun r =>
    (r.body.StringVal, copyResourceAttributes rl.resource r.attributes))))

/-- The number of records of a batch. -/
def recordCount (lg : Logs) : Nat :=
  (lg.map (fun rl => (rl.scopeLogs.map (fun sl => sl.logRecords.length)).sum)).sum

/-- The fragment `createPayload` builds for one record: its result on the empty payload. -/
def fragment (lib : Lib) (msg : Str) (attributesMap : PMap) (g : Globals) : Str :=
  (createPayload lib msg [] attributesMap g).1

/-- The package state `createPayload` leaves behind for one record. -/
def stateAfter (lib : Lib) (msg : Str) (attributesMap : PMap) (g : Globals) : Globals :=
  (createPayload lib msg [] attributesMap g).2

/-- The fragments of a list of records, the package state threaded from each record to
the next. -/
def fragmentsFrom (lib : Lib) : List (Str × PMap) → Globals → List Str
  | [], _ => []
  | r :: rest, g =>
    fragment lib r.1 r.2 g :: fragmentsFrom lib rest (stateAfter lib r.1 r.2 g)

/-- Lines 117-118: the text placed between the quotes of the `msg` field. -/
def escapedMsg (lib : Lib) (msg : Str) : Str := trimEnds (Quote lib msg)

/-- The characters of a plain body: printable ASCII (U+0020..U+007E, which holds the
double quote and the backslash) and the newline. -/
def isPlainChar (c : Char) : Bool :=
  decide ((0x20 ≤ c.toNat ∧ c.toNat ≤ 0x7E) ∨ c.toNat = 10)

/-- The constant text in front of the escaped message in every fragment. -/
def msgPrefix : Str := "\x7b\n\t\t\t\"msg\": \"".toList

/-- The value of the last entry of a `pcommon.Map` slice under a key: the one a `Range`
that overwrites leaves behind. -/
def PMap.last : PMap → Str → Option Value
  | [], _ => none
  | (k', v) :: rest, k =>
    match PMap.last rest k with
    | some w => some w
    | none => if k' = k then some v else none

/-- The value of the first entry of a `pcommon.Map` slice under a key: the one `Map.Get`
returns. -/
def PMap.first : PMap → Str → Option Value
  | [], _ => none
  | (k', v) :: rest, k => if k' = k then some v else PMap.first rest k

/-- The metadata splice of a fragment when marshalling reports no error. -/
def spliceOf (metadataMap : GoMap) : Str :=
  ",\n".toList ++ trimEnds (jsonEncodeMap metadataMap)

/-! ## Construction and delivery -/

def logIngestURI : Str := "/log/ingest".toList

def baseURL : Str := "/rest".toList

def apiV3 : Str := "3".toList

/-- The struct `responseBody` of lines 30-32. -/
structure responseBody where
  Message : Str

/-- The exporter's configuration as far as the source reads it: the endpoint URL, the
access token and the extra headers. -/
structure Config where
  URL : Str
  APIToken : Str
  Headers : List (Str × Str)

/-- The arguments of one `MakeRequest` call, in the order of line 93; the time-out is in
nanoseconds, the headers argument is `nil` or a map. -/
structure Request where
  version : Str
  method : Str
  base : Str
  uri : Str
  configURL : Str
  timeout : Nat
  body : Str
  headers : Option (List (Str × Str))

/-- What the client hands back on success: the body bytes (`nil` or a slice) and the
status code. -/
structure Response where
  Body : Option Str
  StatusCode : Int

/-- The interface `HttpClient`, by its one method `MakeRequest`: the outcome of a request,
which may depend on the requests issued before it, is a transport error or a response. -/
abbrev HttpClient := List Request → Request → Except Str Response

/-- The struct `logsExporter` of lines 34-38; the logger is the log of `World`. -/
structure logsExporter where
  config : Config
  client : HttpClient

/-- One call `e.logger.Error(msg, zap.Error(err))`: the message and the error's text. -/
structure LogEntry where
  msg : Str
  err : Str

/-- What delivery acts on outside the exporter: the requests issued to the client so far
and the error entries written to the logger so far. -/
structure World where
  sent : List Request
  logged : List LogEntry

/-- The library function `json.Unmarshal` into a `responseBody`, taken as given: an error,
or the decoded struct. -/
abbrev Unmarshaller := Option Str → Except Str responseBody

/-- The result of `export`: the three returned values and the world afterwards. -/
structure ExportResult where
  body : Option Str
  status : Int
  err : Option Str
  world : World

/-- The request `export` builds at line 93: five seconds, method POST, no headers. -/
def exportRequest (e : logsExporter) (payload : Str) : Request :=
  ⟨apiV3, "POST".toList, baseURL, logIngestURI, e.config.URL, 5 * 1000000000, payload, none⟩

/-- The method `export` (lines 90-110). The `err` returned at line 107 is the variable of
line 93, which is `nil` there; the `err` of line 100 is local to its `if`. -/
def logsExporter.export (unmarshal : Unmarshaller) (e : logsExporter) (payload : Str)
    (w : World) : ExportResult :=
  let req := exportRequest e payload
  let w1 : World := { w with sent := w.sent ++ [req] }
  match e.client w.sent req with
  | Except.error err =>
    ⟨none, 0, some err,
      { w1 with logged := w1.logged ++
          [⟨"error caught in http request of logs exporter".toList, err⟩] }⟩
  | Except.ok resp =>
    match unmarshal resp.Body with
    | Except.error err2 =>
      ⟨resp.Body, resp.StatusCode, some err2,
        { w1 with logged := w1.logged ++ [⟨"error unmarshalling response".toList, err2⟩] }⟩
    | Except.ok respBody =>
      if ¬ (resp.StatusCode = 200 ∨ resp.StatusCode = 202) then
        ⟨resp.Body, resp.StatusCode, none,
          { w1 with logged := w1.logged ++
              [⟨"error caught while sending logs with response ".toList,
                respBody.Message⟩] }⟩
      else ⟨none, 0, none, w1⟩

/-- The fields of a parsed URL that the constructor reads. -/
structure URL where
  Scheme : Str
  Host : Str

/-- The function `newLogsExporter` (lines 45-61), for a configuration of type `*Config`;
`url.Parse` and `NewLMHTTPClient` are taken as given. -/
def newLogsExporter (urlParse : Str → Except Str URL)
    (NewLMHTTPClient : Str → List (Str × Str) → HttpClient) (oCfg : Config) :
    Except Str logsExporter :=
  let newClient := NewLMHTTPClient oCfg.APIToken oCfg.Headers
  let urlError : Bool :=
    if oCfg.URL ≠ [] then
      match urlParse oCfg.URL with
      | Except.error _ => true
      | Except.ok u => decide (u.Scheme = [] ∨ u.Host = [])
    else false
  if urlError then Except.error "URL must be a valid".toList
  else Except.ok ⟨oCfg, newClient⟩

/-- One call of `PushLogData` on an exporter together with the goroutine it starts at
line 85, run to its end: what the caller gets back, and the result of the delivery,
which nobody receives. -/
def pushAndDeliver (lib : Lib) (unmarshal : Unmarshaller) (e : logsExporter) (lg : Logs)
    (g : Globals) (w : World) : PushResult × ExportResult :=
  let r := PushLogData lib lg g
  (r, logsExporter.export unmarshal e r.payload w)

/-- Does the delivery go through: no transport error, the body unmarshals, and the status
is 200 or 202. -/
def deliveryOk (unmarshal : Unmarshaller) (e : logsExporter) (payload : Str) (w : World) :
    Bool :=
  match e.client w.sent (exportRequest e payload) with
  | Except.error _ => false
  | Except.ok resp =>
    match unmarshal resp.Body with
    | Except.error _ => false
    | Except.ok _ => decide (resp.StatusCode = 200 ∨ resp.StatusCode = 202)

/-- An unmarshaller that is exact on bodies of the shape `{"message":"..."}` without
white space, whose message it decodes as a JSON string; it reports an error on every
other body. It serves to evaluate `export` on sample responses. -/
def sampleUnmarshal : Unmarshaller
  | none => Except.error "unexpected end of JSON input".toList
  | some t =>
    match stripPrefix "\x7b\"message\":\"".toList t with
    | none => Except.error "unsupported body".toList
    | some r =>
      if r.drop (r.length - 2) = "\"\x7d".toList then
        match jsonDecodeString (r.take (r.length - 2)) with
        | some m => Except.ok ⟨m⟩
        | none => Except.error "invalid string".toList
      else Except.error "unsupported body".toList

/-- A client that answers every request with the same response. -/
def constClient (body : Str) (status : Int) : HttpClient :=
  fun _ _ => Except.ok ⟨some body, status⟩

/-- A client whose every request fails in transport. -/
def deadClient : HttpClient :=
  fun _ _ => Except.error "connection refused".toList

/-- A parser of URLs of the shape `scheme://host` or `scheme://host/path`: the scheme is
what precedes the first colon, the host what lies between the two slashes after it and
the next slash; without a colon followed by two slashes there is neither. It serves to
evaluate the constructor on sample URLs. -/
def sampleURLParse (u : Str) : Except Str URL :=
  let scheme := u.takeWhile (fun c => c ≠ ':')
  match stripPrefix "://".toList (u.dropWhile (fun c => c ≠ ':')) with
  | none => Except.ok ⟨[], []⟩
  | some r => Except.ok ⟨scheme, r.takeWhile (fun c => c ≠ '/')⟩

/-- Is the URL not an absolute URL with a scheme and a host: it fails to parse, or its
scheme or its host is empty. -/
def notAbsolute (urlParse : Str → Except Str URL) (u : Str) : Bool :=
  match urlParse u with
  | Except.error _ => true
  | Except.ok p => decide (p.Scheme = [] ∨ p.Host = [])

/-- The exporter used to evaluate deliveries: endpoint `https://lm.example`, a client
that answers every request with the given body and status. -/
def sampleExporter (body : Str) (status : Int) : logsExporter :=
  ⟨⟨"https://lm.example".toList, [], []⟩, constClient body status⟩

/-! ## Sequences of calls and interleaved calls -/

/-- Is the value of string type. -/
def Value.isString : Value → Bool
  | Value.str _ => true
  | _ => false

/-- The last `hostname` attribute met when attribute sets are ranged over one after the
other: the most recently seen host name. -/
def lastSeen : List PMap → Option Value
  | [] => none
  | a :: rest =>
    match lastSeen rest with
    | some v => some v
    | none => PMap.last a hostname

/-- The package state after a sequence of `createPayload` calls, each given by its
message, the payload passed in and the attributes. -/
def runCalls (lib : Lib) : List (Str × Str × PMap) → Globals → Globals
  | [], g => g
  | c :: rest, g => runCalls lib rest (createPayload lib c.1 c.2.1 c.2.2 g).2

/-- Lines 122-146 of `createPayload`: what it returns once the callback has run over the
attributes, from the package state it finds at that moment. -/
def finishPayload (lib : Lib) (msg payload : Str) (g : Globals) : Str :=
  match metadataSplice lib g.metadataMap with
  | none => []
  | some metadataString =>
    let temp := tempPayload (trimEnds (Quote lib msg)) g.resourceMapperKey
      (g.resourceMapperMap.get g.resourceMapperKey) metadataString
    if payload ≠ [] then payload ++ ",\n".toList ++ temp else temp

/-- A running call of `PushLogData`: the records it has not started, the body of the
record whose `createPayload` has run through line 121 (if one is under way), and its
local variable `payload`. -/
structure Call where
  todo : List (Str × PMap)
  inFlight : Option Str
  payload : Str

/-- A call at its start. -/
def Call.start (lg : Logs) : Call := ⟨flattenRecords lg, none, []⟩

/-- One step of a call on the shared package state: lines 114-121 of the next record's
`createPayload`, or lines 122-146 of the one under way; a call without work stays put. -/
def Call.step (lib : Lib) (c : Call) (g : Globals) : Call × Globals :=
  match c.inFlight with
  | some msg => (⟨c.todo, none, finishPayload lib msg c.payload g⟩, g)
  | none =>
    match c.todo with
    | [] => (c, g)
    | r :: rest => (⟨rest, some r.1, c.payload⟩, scanAttributes r.2 g)

/-- The payload a finished call hands to `export` (line 83). -/
def Call.result (c : Call) : Str := "[\n".toList ++ c.payload ++ "]\n".toList

/-- Two calls sharing the package state, stepped in the order of a schedule: `false`
steps the first call, `true` the second. -/
def runTwo (lib : Lib) : List Bool → Call × Call × Globals → Call × Call × Globals
  | [], s => s
  | b :: rest, (a, c, g) =>
    if b then runTwo lib rest (a, (c.step lib g).1, (c.step lib g).2)
    else runTwo lib rest ((a.step lib g).1, c, (a.step lib g).2)

/-- A call stepped on its own a number of times. -/
def runAlone (lib : Lib) : Nat → Call × Globals → Call × Globals
  | 0, s => s
  | n + 1, (c, g) => runAlone lib n (c.step lib g)

/-- The batch of one record with the given body, without attributes of its own, under a
resource whose only attribute is `hostname` with the given value. -/
def sampleBatch (host body : Str) : Logs :=
  [⟨[(hostname, Value.str host)], [⟨[⟨Value.str body, []⟩]⟩]⟩]

/-- The batch of one record with the given body, without attributes, under a resource
without attributes. -/
def plainBatch (body : Str) : Logs :=
  [⟨[], [⟨[⟨Value.str body, []⟩]⟩]⟩]

/-- The metadata map `createPayload` builds for a set of attributes; it does not depend
on the package state before the call. -/
def metadataOf (attrs : PMap) : GoMap := (scanAttributes attrs Globals.init).metadataMap

/-- The package state after the `createPayload` calls for a list of records. -/
def stateAfterAll (lib : Lib) (recs : List (Str × PMap)) (g : Globals) : Globals :=
  recs.foldl (fun g r => stateAfter lib r.1 r.2 g) g

/-- The shape of the identity state once the given host name was the last one seen: the
empty key and the empty map when none was, else the key `system.hostname` and the map
with that one key, holding the value's string. -/
def identityShape (g : Globals) (seen : Option Value) : Prop :=
  match seen with
  | none => g.resourceMapperKey = [] ∧ g.resourceMapperMap = []
  | some v =>
    g.resourceMapperKey = hostnameProperty
    ∧ g.resourceMapperMap = [(hostnameProperty, v.StringVal)]

/-- The identity pair written into a fragment once the given host name was the last one
seen. -/
def identityPair (seen : Option Value) : Str × Str :=
  match seen with
  | none => ([], [])
  | some v => (hostnameProperty, v.StringVal)

/-! ## Members of a JSON object -/

/-- The members of an object after its opening brace, `fuel` bounding their number: each
as the pair of its decoded key and the text of its value; `value` recognises one value
and returns what follows it. Nothing but white space may follow the closing brace. -/
def jsonMemberList (value : Str → Option Str) : Nat → Str → Option (List (Str × Str))
  | 0, _ => none
  | fuel + 1, t =>
    match skipWs t with
    | '"' :: r =>
      match jsonStringTail r with
      | none => none
      | some r1 =>
        match jsonDecodeString (r.take (r.length - r1.length - 1)) with
        | none => none
        | some key =>
          match skipWs r1 with
          | ':' :: r2 =>
            match value r2 with
            | none => none
            | some r3 =>
              match skipWs r3 with
              | ',' :: r4 =>
                (jsonMemberList value fuel r4).map (fun l =>
                  (key, (skipWs r2).take ((skipWs r2).length - r3.length)) :: l)
              | '}' :: r4 =>
                if skipWs r4 = [] then
                  some [(key, (skipWs r2).take ((skipWs r2).length - r3.length))]
                else none
              | _ => none
          | _ => none
    | _ => none

/-- The members of a JSON text that is an object, in the order written: decoded key and
text of the value; `none` when the text is not a JSON object. -/
def jsonObjectMembers (t : Str) : Option (List (Str × Str)) :=
  match skipWs t with
  | '{' :: r =>
    match skipWs r with
    | '}' :: r1 => if skipWs r1 = [] then some [] else none
    | r1 => jsonMemberList (jsonValue (r1.length + 1)) r1.length r1
  | _ => none

/-- The text of the value of the first member with the given key. -/
def memberValue (key : Str) : List (Str × Str) → Option Str
  | [] => none
  | (k, v) :: rest => if k = key then some v else memberValue key rest

/-- The members of the `_lm.resourceId` object of a fragment, read as JSON. -/
def resourceIdMembers (frag : Str) : Option (List (Str × Str)) :=
  match jsonObjectMembers frag with
  | none => none
  | some ms =>
    match memberValue "_lm.resourceId".toList ms with
    | none => none
    | some v => jsonObjectMembers v

/-- The text of the `_lm.resourceId` object as lines 134-136 write it from a key and a
value. -/
def resourceIdObject (key val : Str) : Str :=
  "\x7b\n\t\t\t\t\"".toList ++ key ++ "\": \"".toList ++ val ++ "\"\n\t\t\t\x7d".toList

/-- The text in front of the `_lm.resourceId` object in a fragment with the given
escaped message. -/
def resourceIdLead (msg : Str) : Str :=
  msgPrefix ++ msg ++ "\",\n\t\t\t\"_lm.resourceId\": ".toList

/-- Is the character one that a JSON string holds as it stands: no double quote, no
backslash, no control character. -/
def isLiteralChar (c : Char) : Bool :=
  decide (c ≠ '"' ∧ c ≠ '\\' ∧ 0x20 ≤ c.toNat)

/-! ## Theorems -/

set_option maxRecDepth 1000000

/-! ### Assembly of the batch payload -/

theorem tempPayload_ne_nil (msg key val md : Str) : tempPayload msg key val md ≠ [] := by
  simp [tempPayload]

theorem metadataSplice_std (tbl : Char → Bool) (m : GoMap) :
    metadataSplice (Lib.std tbl) m =
      some (if m.length ≠ 0 then ",\n".toList ++ trimEnds (jsonEncodeMap m) else []) := by
  unfold metadataSplice Marshal Lib.std
  by_cases h : m.length ≠ 0 <;> simp [h]

/-- With a marshaller that reports no error the fragment is never empty. -/
theorem fragment_ne_nil (tbl : Char → Bool) (msg : Str) (a : PMap) (g : Globals) :
    fragment (Lib.std tbl) msg a g ≠ [] := by
  unfold fragment createPayload
  simp only [metadataSplice_std]
  simp [tempPayload_ne_nil]

/-- The state `createPayload` leaves does not depend on the payload passed in. -/
theorem createPayload_state (lib : Lib) (msg p : Str) (a : PMap) (g : Globals) :
    (createPayload lib msg p a g).2 = stateAfter lib msg a g := by
  simp only [stateAfter, createPayload]
  split <;> rfl

/-- With a marshaller that reports no error `createPayload` appends the record's fragment
to the payload, after a separator when the payload is not empty. -/
theorem createPayload_std (tbl : Char → Bool) (msg p : Str) (a : PMap) (g : Globals) :
    (createPayload (Lib.std tbl) msg p a g).1 =
      if p ≠ [] then p ++ ",\n".toList ++ fragment (Lib.std tbl) msg a g
      else fragment (Lib.std tbl) msg a g := by
  unfold fragment createPayload
  simp only [metadataSplice_std]
  simp

/-- The three nested loops visit the records of `flattenRecords`, in that order. -/
theorem loops_eq_foldl (lib : Lib) (lg : Logs) (acc : Str × Globals) :
    lg.foldl (fun acc resourceLog =>
      resourceLog.scopeLogs.foldl (fun acc libraryLog =>
        libraryLog.logRecords.foldl (fun acc log =>
          createPayload lib log.body.StringVal acc.1
            (copyResourceAttributes resourceLog.resource log.attributes) acc.2)
          acc) acc) acc
    = (flattenRecords lg).foldl (fun acc r => createPayload lib r.1 acc.1 r.2 acc.2) acc := by
  induction lg generalizing acc with
  | nil => rfl
  | cons rl rest ih =>
    have inner : ∀ (sls : List ScopeLogs) (acc : Str × Globals),
        sls.foldl (fun acc libraryLog =>
          libraryLog.logRecords.foldl (fun acc log =>
            createPayload lib log.body.StringVal acc.1
              (copyResourceAttributes rl.resource log.attributes) acc.2) acc) acc
        = (sls.flatMap (fun sl => sl.logRecords.map (fun r =>
            (r.body.StringVal, copyResourceAttributes rl.resource r.attributes)))).foldl
            (fun acc r => createPayload lib r.1 acc.1 r.2 acc.2) acc := by
      intro sls
      induction sls with
      | nil => intro acc; rfl
      | cons sl more ih2 =>
        intro acc
        rw [List.foldl_cons, ih2, List.flatMap_cons, List.foldl_append, List.foldl_map]
    rw [List.foldl_cons, ih, inner]
    simp only [flattenRecords, List.flatMap_cons, List.foldl_append]

/-- Joining with a separator, one element peeled off. -/
theorem intercalate_cons (sep f : Str) (fs : List Str) :
    sep.intercalate (f :: fs) = f ++ (fs.map (fun x => sep ++ x)).flatten := by
  induction fs generalizing f with
  | nil => simp [List.intercalate, List.intersperse]
  | cons f2 rest ih =>
    have h := ih f2
    simp only [List.intercalate] at h ⊢
    simp [List.intersperse, h]

/-- Folding `createPayload` over records appends their fragments with separators. -/
theorem foldl_createPayload (tbl : Char → Bool) (recs : List (Str × PMap))
    (p : Str) (g : Globals) :
    (recs.foldl (fun acc r => createPayload (Lib.std tbl) r.1 acc.1 r.2 acc.2) (p, g)).1 =
      if p ≠ [] then
        p ++ ((fragmentsFrom (Lib.std tbl) recs g).map (fun x => ",\n".toList ++ x)).flatten
      else ",\n".toList.intercalate (fragmentsFrom (Lib.std tbl) recs g) := by
  induction recs generalizing p g with
  | nil => by_cases h : p = [] <;> simp [h, fragmentsFrom, List.intercalate]
  | cons r rest ih =>
    have hst : createPayload (Lib.std tbl) r.1 p r.2 g =
        ((createPayload (Lib.std tbl) r.1 p r.2 g).1, stateAfter (Lib.std tbl) r.1 r.2 g) := by
      rw [← createPayload_state (Lib.std tbl) r.1 p r.2 g]
    rw [List.foldl_cons]
    show (List.foldl _ (createPayload (Lib.std tbl) r.1 p r.2 g) rest).1 = _
    rw [hst, ih, createPayload_std]
    have hf := fragment_ne_nil tbl r.1 r.2 g
    by_cases h : p = []
    · subst h
      simp [hf, fragmentsFrom, intercalate_cons]
    · simp [h, fragmentsFrom]

theorem fragmentsFrom_length (lib : Lib) (recs : List (Str × PMap)) (g : Globals) :
    (fragmentsFrom lib recs g).length = recs.length := by
  induction recs generalizing g with
  | nil => rfl
  | cons r rest ih => simp [fragmentsFrom, ih]

theorem flattenRecords_length (lg : Logs) : (flattenRecords lg).length = recordCount lg := by
  induction lg with
  | nil => rfl
  | cons rl rest ih =>
    have inner : ∀ (sls : List ScopeLogs),
        (sls.flatMap (fun sl => sl.logRecords.map (fun r =>
          (r.body.StringVal, copyResourceAttributes rl.resource r.attributes)))).length
        = (sls.map (fun sl => sl.logRecords.length)).sum := by
      intro sls
      induction sls with
      | nil => rfl
      | cons sl more ih2 => simp [List.flatMap_cons, ih2]
    simp only [flattenRecords, recordCount, List.flatMap_cons, List.length_append,
      List.map_cons, List.sum_cons] at ih ⊢
    rw [ih, inner]

/-- C1: the payload `PushLogData` hands to `export` is `"[\n"`, then the fragments of the
records (one per record, in traversal order, the identity state threaded through them)
joined by `",\n"`, then `"]\n"`; for a batch without records it is `"[\n]\n"`. -/
theorem pushLogData_payload (tbl : Char → Bool) (lg : Logs) (g : Globals) :
    (PushLogData (Lib.std tbl) lg g).payload =
        "[\n".toList ++
          ",\n".toList.intercalate (fragmentsFrom (Lib.std tbl) (flattenRecords lg) g) ++
          "]\n".toList
      ∧ (fragmentsFrom (Lib.std tbl) (flattenRecords lg) g).length = recordCount lg
      ∧ (recordCount lg = 0 → (PushLogData (Lib.std tbl) lg g).payload = "[\n]\n".toList) := by
  have hp : (PushLogData (Lib.std tbl) lg g).payload =
        "[\n".toList ++
          ",\n".toList.intercalate (fragmentsFrom (Lib.std tbl) (flattenRecords lg) g) ++
          "]\n".toList := by
    unfold PushLogData
    simp only [loops_eq_foldl]
    rw [foldl_createPayload]
    simp
  refine ⟨hp, ?_, ?_⟩
  · rw [fragmentsFrom_length, flattenRecords_length]
  · intro h0
    have hnil : flattenRecords lg = [] := by
      apply List.eq_nil_of_length_eq_zero
      rw [flattenRecords_length, h0]
    rw [hp, hnil]
    rfl

/-- C1 at a batch made of one resource group without scope groups, from the initial
state: the batch has no record and the payload is `"[\n]\n"`. -/
theorem pushLogData_payload_witness :
    recordCount [⟨[], []⟩] = 0
    ∧ (PushLogData (Lib.std (fun _ => false)) [⟨[], []⟩] Globals.init).payload
        = "[\n]\n".toList :=
  ⟨rfl, (pushLogData_payload (fun _ => false) [⟨[], []⟩] Globals.init).2.2 rfl⟩

/-! ### Escaping of the record body -/

theorem trimEnds_Quote (lib : Lib) (s : Str) : trimEnds (Quote lib s) = quoteBody lib s := by
  simp [trimEnds, Quote, List.dropLast_concat]

theorem decode_plain (c : Char) (rest : Str) (h1 : c ≠ '\\') (h2 : c ≠ '"')
    (h3 : 0x20 ≤ c.toNat) :
    jsonDecodeFrom none (c :: rest) = (jsonDecodeFrom none rest).map (fun t => c :: t) := by
  rw [jsonDecodeFrom]
  · simp [h2]
    omega
  · intros; simp_all
  · intros; simp_all
  · intros; simp_all

theorem decode_escape (e : Char) (rest : Str) (h1 : e ≠ 'u') :
    jsonDecodeFrom none ('\\' :: e :: rest) =
      match jsonSimpleEscape e with
      | none => none
      | some x => (jsonDecodeFrom none rest).map (fun t => x :: t) := by
  rw [jsonDecodeFrom]
  · simp
  · intros; simp_all

theorem escape_quote (lib : Lib) : appendEscapedRune lib '"' = ['\\', '"'] := by
  simp [appendEscapedRune]

theorem escape_backslash (lib : Lib) : appendEscapedRune lib '\\' = ['\\', '\\'] := by
  simp [appendEscapedRune]

theorem escape_newline (lib : Lib) : appendEscapedRune lib (Char.ofNat 10) = ['\\', 'n'] := by
  simp [appendEscapedRune, IsPrint]

theorem escape_printable (lib : Lib) (c : Char) (h1 : c ≠ '\\') (h2 : c ≠ '"')
    (h3 : 0x20 ≤ c.toNat) (h4 : c.toNat ≤ 0x7E) : appendEscapedRune lib c = [c] := by
  have : c.toNat ≤ 0xFF := by omega
  simp [appendEscapedRune, IsPrint, h1, h2, h3, h4, this]

/-- Decoding undoes the escaping of one plain character in front of any text. -/
theorem decode_escaped_rune (lib : Lib) (c : Char) (h : isPlainChar c = true) (t : Str) :
    jsonDecodeFrom none (appendEscapedRune lib c ++ t) =
      (jsonDecodeFrom none t).map (fun u => c :: u) := by
  by_cases hq : c = '"'
  · subst hq
    rw [escape_quote, List.cons_append, List.cons_append, List.nil_append,
      decode_escape _ _ (by decide)]
    rfl
  by_cases hb : c = '\\'
  · subst hb
    rw [escape_backslash, List.cons_append, List.cons_append, List.nil_append,
      decode_escape _ _ (by decide)]
    rfl
  simp only [isPlainChar, decide_eq_true_eq] at h
  rcases h with ⟨h3, h4⟩ | h10
  · rw [escape_printable lib c hb hq h3 h4, List.cons_append, List.nil_append,
      decode_plain c t hb hq h3]
  · have hc : c = Char.ofNat 10 := by
      rw [← h10, Char.ofNat_toNat]
    subst hc
    rw [escape_newline, List.cons_append, List.cons_append, List.nil_append,
      decode_escape _ _ (by decide)]
    rfl

/-- JSON-decoding the escaped text of a plain body gives the body back. -/
theorem decode_quoteBody (lib : Lib) (body : Str) (h : ∀ c ∈ body, isPlainChar c = true) :
    jsonDecodeFrom none (quoteBody lib body) = some body := by
  induction body with
  | nil => rfl
  | cons c rest ih =>
    rw [quoteBody, decode_escaped_rune lib c (h c (List.mem_cons_self c rest)),
      ih (fun d hd => h d (List.mem_cons_of_mem c hd))]
    rfl

/-- The fragment starts with the constant prefix, the escaped message and a quote. -/
theorem fragment_msg (tbl : Char → Bool) (body : Str) (a : PMap) (g : Globals) :
    ∃ rest, fragment (Lib.std tbl) body a g =
      msgPrefix ++ escapedMsg (Lib.std tbl) body ++ '"' :: rest := by
  unfold fragment createPayload
  simp only [metadataSplice_std]
  simp [tempPayload, msgPrefix, escapedMsg]

/-- C3: for a body made of printable ASCII characters, double quotes, backslashes and
newlines, the text `createPayload` places between the quotes of the `msg` field is valid
JSON string content and JSON-decodes to the body. -/
theorem msg_roundtrip (tbl : Char → Bool) (body : Str) (a : PMap) (g : Globals)
    (h : ∀ c ∈ body, isPlainChar c = true) :
    (∃ rest, fragment (Lib.std tbl) body a g =
      msgPrefix ++ escapedMsg (Lib.std tbl) body ++ '"' :: rest)
    ∧ jsonDecodeString (escapedMsg (Lib.std tbl) body) = some body := by
  refine ⟨fragment_msg tbl body a g, ?_⟩
  unfold jsonDecodeString escapedMsg
  rw [trimEnds_Quote]
  exact decode_quoteBody _ body h

/-- C3 at the body `say "hi"\now` followed by a newline, a record without attributes. -/
theorem msg_roundtrip_witness :
    (∀ c ∈ "say \"hi\"\\now\n".toList, isPlainChar c = true)
    ∧ (∃ rest, fragment (Lib.std (fun _ => false)) "say \"hi\"\\now\n".toList [] Globals.init =
        msgPrefix ++ escapedMsg (Lib.std (fun _ => false)) "say \"hi\"\\now\n".toList
          ++ '"' :: rest)
    ∧ jsonDecodeString (escapedMsg (Lib.std (fun _ => false)) "say \"hi\"\\now\n".toList) =
        some "say \"hi\"\\now\n".toList :=
  ⟨by decide, msg_roundtrip (fun _ => false) "say \"hi\"\\now\n".toList [] Globals.init
    (by decide)⟩

/-- C4 at the body made of the single character BEL (U+0007): the escaped text is the
Go escape `\a`, which is not valid content of a JSON string literal, while the JSON
escaping of the same body (`\u0007`) decodes to it. -/
theorem escapedMsg_bel_not_json :
    escapedMsg (Lib.std (fun _ => false)) [Char.ofNat 7] = ['\\', 'a']
    ∧ jsonDecodeString (escapedMsg (Lib.std (fun _ => false)) [Char.ofNat 7]) = none
    ∧ jsonDecodeString (jsonEscapeBody [Char.ofNat 7]) = some [Char.ofNat 7] := by
  decide

/-! ### Go maps, `Insert` and the attribute scan -/

theorem GoMap.find_set (m : GoMap) (k v k' : Str) :
    (m.set k v).find k' = if k = k' then some v else m.find k' := by
  induction m with
  | nil => simp [GoMap.set, GoMap.find]
  | cons e rest ih =>
    obtain ⟨a, b⟩ := e
    by_cases h : a = k
    · subst h
      by_cases h2 : a = k' <;> simp [GoMap.set, GoMap.find, h2]
    · by_cases h2 : a = k'
      · subst h2
        simp [GoMap.set, GoMap.find, h, Ne.symm h]
      · simp [GoMap.set, GoMap.find, h, h2, ih]

theorem GoMap.get_set_self (m : GoMap) (k v : Str) : (m.set k v).get k = v := by
  induction m with
  | nil => simp [GoMap.set, GoMap.get]
  | cons e rest ih =>
    obtain ⟨a, b⟩ := e
    by_cases h : a = k <;> simp [GoMap.set, GoMap.get, h, ih]

theorem GoMap.mem_of_find (m : GoMap) (k v : Str) (h : m.find k = some v) : (k, v) ∈ m := by
  induction m with
  | nil => simp [GoMap.find] at h
  | cons e rest ih =>
    obtain ⟨a, b⟩ := e
    by_cases h2 : a = k
    · subst h2
      simp [GoMap.find] at h
      simp [h]
    · simp [GoMap.find, h2] at h
      simp [ih h]

theorem PMap.has_append (m n : PMap) (k : Str) : PMap.has (m ++ n) k = (m.has k || n.has k) := by
  simp [PMap.has]

theorem PMap.has_cons (a : Str) (b : Value) (m : PMap) (k : Str) :
    PMap.has ((a, b) :: m) k = (decide (a = k) || m.has k) := by
  simp [PMap.has]

theorem PMap.has_single_self (k : Str) (v : Value) : PMap.has [(k, v)] k = true := by
  simp [PMap.has]

theorem PMap.last_append_single (m : PMap) (k' : Str) (v' : Value) (k : Str) :
    PMap.last (m ++ [(k', v')]) k = if k' = k then some v' else PMap.last m k := by
  induction m with
  | nil => simp [PMap.last]
  | cons e rest ih =>
    obtain ⟨a, b⟩ := e
    by_cases h : k' = k
    · subst h
      simp [PMap.last, ih]
    · simp [PMap.last, ih, h]

theorem PMap.last_eq_none (m : PMap) (k : Str) (h : m.has k = false) : PMap.last m k = none := by
  induction m with
  | nil => rfl
  | cons e rest ih =>
    obtain ⟨a, b⟩ := e
    simp [PMap.has] at h
    have hr : PMap.has rest k = false := by
      simp [PMap.has]
      exact h.2
    simp [PMap.last, ih hr, h.1]

theorem PMap.last_isSome (m : PMap) (k : Str) (h : m.has k = true) :
    (PMap.last m k).isSome = true := by
  induction m with
  | nil => simp [PMap.has] at h
  | cons e rest ih =>
    obtain ⟨a, b⟩ := e
    cases hl : PMap.last rest k with
    | some w => simp [PMap.last, hl]
    | none =>
      by_cases hk : a = k
      · simp [PMap.last, hl, hk]
      · have hr : PMap.has rest k = true := by
          simp [PMap.has] at h
          rcases h with h | h
          · exact absurd h hk
          · simp [PMap.has]
            exact h
        have := ih hr
        simp [hl] at this

/-- The method `Insert` keeps the entries of the map and adds at most one at the end. -/
theorem PMap.Insert_extends (m : PMap) (k : Str) (v : Value) : m <+: PMap.Insert m k v := by
  unfold PMap.Insert
  split
  · exact List.prefix_refl m
  · exact List.prefix_append m _

theorem PMap.Insert_has (m : PMap) (k : Str) (v : Value) : (PMap.Insert m k v).has k = true := by
  unfold PMap.Insert
  by_cases h : m.has k = true
  · simp [h]
  · rw [if_neg h, PMap.has_append, PMap.has_single_self, Bool.or_true]

theorem PMap.has_of_extends (m n : PMap) (k : Str) (h : m <+: n) (hk : m.has k = true) :
    n.has k = true := by
  obtain ⟨t, rfl⟩ := h
  simp [PMap.has_append, hk]

theorem copy_nil (A : PMap) : copyResourceAttributes [] A = A := rfl

theorem copy_cons (k : Str) (v : Value) (R A : PMap) :
    copyResourceAttributes ((k, v) :: R) A = copyResourceAttributes R (PMap.Insert A k v) := rfl

/-- The copy of the resource attributes keeps the record's entries in front. -/
theorem copy_extends (R A : PMap) : A <+: copyResourceAttributes R A := by
  induction R generalizing A with
  | nil => exact List.prefix_refl A
  | cons e rest ih =>
    obtain ⟨k, v⟩ := e
    rw [copy_cons]
    exact List.IsPrefix.trans (PMap.Insert_extends A k v) (ih _)

/-- After the copy every key of the resource is a key of the record. -/
theorem copy_has_resource (R A : PMap) (k : Str) (h : R.has k = true) :
    (copyResourceAttributes R A).has k = true := by
  induction R generalizing A with
  | nil => simp [PMap.has] at h
  | cons e rest ih =>
    obtain ⟨a, b⟩ := e
    rw [copy_cons]
    by_cases hk : a = k
    · subst hk
      exact PMap.has_of_extends _ _ _ (copy_extends rest _) (PMap.Insert_has A a b)
    · apply ih
      simp [PMap.has] at h
      rcases h with h | h
      · exact absurd h hk
      · simp [PMap.has]
        exact h

/-- A key the record already has keeps its last value through the copy. -/
theorem copy_last_of_has (R A : PMap) (k : Str) (h : A.has k = true) :
    PMap.last (copyResourceAttributes R A) k = PMap.last A k := by
  induction R generalizing A with
  | nil => rfl
  | cons e rest ih =>
    obtain ⟨a, b⟩ := e
    rw [copy_cons, ih _ (PMap.has_of_extends _ _ _ (PMap.Insert_extends A a b) h)]
    unfold PMap.Insert
    by_cases ha : A.has a = true
    · simp [ha]
    · have hne : a ≠ k := by
        intro heq
        subst heq
        exact ha h
      simp [ha, PMap.last_append_single, hne]

/-- A key the record does not have receives the resource's first value for it. -/
theorem copy_last_of_not_has (R A : PMap) (k : Str) (h : A.has k = false) :
    PMap.last (copyResourceAttributes R A) k = PMap.first R k := by
  induction R generalizing A with
  | nil => exact PMap.last_eq_none A k h
  | cons e rest ih =>
    obtain ⟨a, b⟩ := e
    rw [copy_cons]
    by_cases hk : a = k
    · subst hk
      rw [copy_last_of_has _ _ _ (PMap.Insert_has A a b)]
      simp [PMap.Insert, h, PMap.last_append_single, PMap.first]
    · have hI : (PMap.Insert A a b).has k = false := by
        unfold PMap.Insert
        split
        · exact h
        · rw [PMap.has_append, h, PMap.has_cons]
          simp [hk, PMap.has]
      rw [ih _ hI]
      simp [PMap.first, hk]

theorem range_cons {σ : Type} (a : Str) (b : Value) (rest : PMap) (f : Str → Value → σ → σ)
    (s : σ) : PMap.Range ((a, b) :: rest) f s = PMap.Range rest f (f a b s) := rfl

theorem rangeOver_metadata (a : Str) (b : Value) (g : Globals) :
    (rangeOverAttributesMap a b g).metadataMap = g.metadataMap.set a b.StringVal := by
  unfold rangeOverAttributesMap
  by_cases h : a = hostname <;> simp [h]

/-- After the callback has run over the attributes, the metadata map holds under each
key the string of the last attribute with that key, and what it held before elsewhere. -/
theorem range_metadata_find (attrs : PMap) (g : Globals) (k : Str) :
    (attrs.Range rangeOverAttributesMap g).metadataMap.find k =
      match PMap.last attrs k with
      | some v => some v.StringVal
      | none => g.metadataMap.find k := by
  induction attrs generalizing g with
  | nil => rfl
  | cons e rest ih =>
    obtain ⟨a, b⟩ := e
    rw [range_cons, ih, rangeOver_metadata, GoMap.find_set]
    cases hl : PMap.last rest k with
    | some w => simp [PMap.last, hl]
    | none =>
      by_cases hk : a = k <;> simp [PMap.last, hl, hk]

/-- After the callback has run over the attributes, the identity is the pair made of
`system.hostname` and the string of the last `hostname` attribute, and is untouched when
there is no such attribute. -/
theorem range_identity (attrs : PMap) (g : Globals) :
    match PMap.last attrs hostname with
    | some v =>
      (attrs.Range rangeOverAttributesMap g).resourceMapperKey = hostnameProperty
      ∧ (attrs.Range rangeOverAttributesMap g).resourceMapperMap.get hostnameProperty
          = v.StringVal
    | none =>
      (attrs.Range rangeOverAttributesMap g).resourceMapperKey = g.resourceMapperKey
      ∧ (attrs.Range rangeOverAttributesMap g).resourceMapperMap = g.resourceMapperMap := by
  induction attrs generalizing g with
  | nil => exact ⟨rfl, rfl⟩
  | cons e rest ih =>
    obtain ⟨a, b⟩ := e
    have h := ih (rangeOverAttributesMap a b g)
    rw [range_cons]
    cases hl : PMap.last rest hostname with
    | some w =>
      rw [hl] at h
      simpa [PMap.last, hl] using h
    | none =>
      rw [hl] at h
      by_cases hk : a = hostname
      · subst hk
        simp only [PMap.last, hl, if_true]
        rw [h.1, h.2]
        simp [rangeOverAttributesMap, GoMap.get_set_self]
      · simp only [PMap.last, hl, if_neg hk]
        rw [h.1, h.2]
        simp [rangeOverAttributesMap, hk]

/-- The metadata map `createPayload` serialises, key by key. -/
theorem scan_metadata_find (attrs : PMap) (g : Globals) (k : Str) :
    (scanAttributes attrs g).metadataMap.find k =
      match PMap.last attrs k with
      | some v => some v.StringVal
      | none => if k = logsourceKey then some logsourceValue else none := by
  unfold scanAttributes
  rw [range_metadata_find]
  cases PMap.last attrs k with
  | some w => rfl
  | none =>
    by_cases hk : k = logsourceKey
    · subst hk
      simp [GoMap.set, GoMap.find]
    · simp [GoMap.set, GoMap.find, hk, Ne.symm hk]

/-- The metadata map is never empty when its length is tested at line 122. -/
theorem scan_metadata_length (attrs : PMap) (g : Globals) :
    (scanAttributes attrs g).metadataMap.length ≠ 0 := by
  intro h
  have hnil : (scanAttributes attrs g).metadataMap = [] := List.eq_nil_of_length_eq_zero h
  have hf := scan_metadata_find attrs g logsourceKey
  rw [hnil] at hf
  cases hl : PMap.last attrs logsourceKey with
  | some w => simp [hl, GoMap.find] at hf
  | none => simp [hl, GoMap.find] at hf

/-- The fragment of a record when marshalling reports no error: the template filled with
the escaped message, the identity pair after the scan and the metadata splice. -/
theorem fragment_std (tbl : Char → Bool) (msg : Str) (attrs : PMap) (g : Globals) :
    fragment (Lib.std tbl) msg attrs g =
      tempPayload (escapedMsg (Lib.std tbl) msg) (scanAttributes attrs g).resourceMapperKey
        ((scanAttributes attrs g).resourceMapperMap.get
          (scanAttributes attrs g).resourceMapperKey)
        (spliceOf (scanAttributes attrs g).metadataMap) := by
  unfold fragment createPayload
  simp only [metadataSplice_std, if_pos (scan_metadata_length attrs g)]
  simp [escapedMsg, spliceOf]

theorem mem_insertByKey (kv x : Str × Str) (m : GoMap) :
    x ∈ insertByKey kv m ↔ x = kv ∨ x ∈ m := by
  induction m with
  | nil => simp [insertByKey]
  | cons e rest ih =>
    unfold insertByKey
    split
    · simp
    · simp only [List.mem_cons, ih]
      tauto

theorem mem_sortByKey (x : Str × Str) (m : GoMap) : x ∈ sortByKey m ↔ x ∈ m := by
  induction m with
  | nil => simp [sortByKey]
  | cons e rest ih => simp [sortByKey, mem_insertByKey, ih]

/-- Every element of a joined list is a contiguous part of the joined text. -/
theorem infix_intercalate (sep x : Str) (xs : List Str) (h : x ∈ xs) :
    x <:+: sep.intercalate xs := by
  induction xs with
  | nil => simp at h
  | cons y rest ih =>
    rcases List.mem_cons.mp h with rfl | hr
    · rw [intercalate_cons]
      exact ⟨[], (rest.map (fun x => sep ++ x)).flatten, by simp⟩
    · have h2 := ih hr
      cases rest with
      | nil => simp at hr
      | cons z more =>
        rw [intercalate_cons]
        rw [intercalate_cons] at h2
        simp only [List.map_cons, List.flatten_cons]
        exact h2.trans ⟨y ++ sep, [], by simp⟩

theorem trimEnds_jsonEncodeMap (m : GoMap) :
    trimEnds (jsonEncodeMap m) = ",".toList.intercalate ((sortByKey m).map jsonEncodeEntry) := by
  simp [trimEnds, jsonEncodeMap, List.dropLast_concat]

/-- Every entry of the metadata map is written, as `"key":"value"`, into the splice. -/
theorem entry_infix_splice (m : GoMap) (k v : Str) (h : m.find k = some v) :
    jsonEncodeEntry (k, v) <:+: spliceOf m := by
  have hm : jsonEncodeEntry (k, v) ∈ (sortByKey m).map jsonEncodeEntry :=
    List.mem_map_of_mem _ ((mem_sortByKey _ _).mpr (GoMap.mem_of_find m k v h))
  have h1 := infix_intercalate ",".toList _ _ hm
  unfold spliceOf
  rw [trimEnds_jsonEncodeMap]
  exact h1.trans ⟨",\n".toList, [], by simp⟩

theorem splice_infix_tempPayload (msg key val md : Str) : md <:+: tempPayload msg key val md := by
  unfold tempPayload
  exact (List.infix_append _ md _).trans (List.prefix_append _ _).isInfix

/-- Every entry of the metadata map is written into the record's fragment. -/
theorem entry_infix_fragment (tbl : Char → Bool) (msg : Str) (attrs : PMap) (g : Globals)
    (k v : Str) (h : (scanAttributes attrs g).metadataMap.find k = some v) :
    jsonEncodeEntry (k, v) <:+: fragment (Lib.std tbl) msg attrs g := by
  rw [fragment_std]
  exact (entry_infix_splice _ k v h).trans (splice_infix_tempPayload _ _ _ _)

/-- A key the record already has keeps all its entries, and only them, through the copy. -/
theorem copy_filter_of_has (R A : PMap) (k : Str) (h : A.has k = true) :
    (copyResourceAttributes R A).filter (fun kv => decide (kv.1 = k))
      = A.filter (fun kv => decide (kv.1 = k)) := by
  induction R generalizing A with
  | nil => rfl
  | cons e rest ih =>
    obtain ⟨a, b⟩ := e
    rw [copy_cons, ih _ (PMap.has_of_extends _ _ _ (PMap.Insert_extends A a b) h)]
    unfold PMap.Insert
    by_cases ha : A.has a = true
    · simp [ha]
    · have hne : a ≠ k := by
        intro heq
        subst heq
        exact ha h
      simp [ha, hne]

theorem PMap.last_eq_none_iff (m : PMap) (k : Str) : PMap.last m k = none ↔ m.has k = false := by
  constructor
  · intro h
    cases hh : m.has k with
    | false => rfl
    | true =>
      have := PMap.last_isSome m k hh
      simp [h] at this
  · exact PMap.last_eq_none m k

theorem decode_plain_text (v : Str) (hv : ∀ c ∈ v, c ≠ '"' ∧ c ≠ '\\' ∧ 0x20 ≤ c.toNat) :
    jsonDecodeFrom none v = some v := by
  induction v with
  | nil => rfl
  | cons c rest ih =>
    obtain ⟨h1, h2, h3⟩ := hv c (List.mem_cons_self c rest)
    rw [decode_plain c rest h2 h1 h3, ih (fun d hd => hv d (List.mem_cons_of_mem c hd))]
    rfl

/-- On a marshalling error `createPayload` returns the empty string, whatever payload it
was given. -/
theorem createPayload_of_marshal_error (lib : Lib) (msg payload : Str) (attrs : PMap)
    (g : Globals) (e : Str)
    (h : lib.marshalErr (scanAttributes attrs g).metadataMap = some e) :
    (createPayload lib msg payload attrs g).1 = [] := by
  unfold createPayload metadataSplice Marshal
  simp [h, scan_metadata_length attrs g]

/-- With the library as it is, where marshalling a map of strings reports no error, the
branch of lines 124-127 is not taken: `createPayload` hands back the payload it was
given with the record's fragment appended, so the payload given is kept in front and the
result is never empty. -/
theorem createPayload_keeps_payload (tbl : Char → Bool) (msg payload : Str) (attrs : PMap)
    (g : Globals) :
    payload <+: (createPayload (Lib.std tbl) msg payload attrs g).1
    ∧ (createPayload (Lib.std tbl) msg payload attrs g).1 ≠ [] := by
  rw [createPayload_std]
  have hf := fragment_ne_nil tbl msg attrs g
  by_cases hp : payload = []
  · subst hp
    simp [hf]
  · simp only [ne_eq, hp, not_false_eq_true, if_true, List.append_assoc]
    exact ⟨List.prefix_append _ _, by simp [hp]⟩

/-! ### The claims about validity, merge, identity and metadata -/

/-- C2 at a batch of one record with body `x` under a resource whose `hostname` is `a"b`,
from the initial state: the identity value is spliced unescaped, the payload is the text
shown and is not a JSON document; with the hostname `ab` the payload is a JSON array. -/
theorem payload_not_json_at_quoted_hostname :
    (PushLogData (Lib.std (fun _ => false))
        [⟨[(hostname, Value.str "a\"b".toList)], [⟨[⟨Value.str "x".toList, []⟩]⟩]⟩]
        Globals.init).payload
      = ("[\n\x7b\n\t\t\t\"msg\": \"x\",\n\t\t\t\"_lm.resourceId\": \x7b\n\t\t\t\t" ++
          "\"system.hostname\": \"a\"b\"\n\t\t\t\x7d,\n" ++
          "\"_lm.logsource_type\":\"logfile\",\"hostname\":\"a\\\"b\"\n\x7d]\n").toList
    ∧ isValidJSON (PushLogData (Lib.std (fun _ => false))
        [⟨[(hostname, Value.str "a\"b".toList)], [⟨[⟨Value.str "x".toList, []⟩]⟩]⟩]
        Globals.init).payload = false
    ∧ isJSONArray (PushLogData (Lib.std (fun _ => false))
        [⟨[(hostname, Value.str "ab".toList)], [⟨[⟨Value.str "x".toList, []⟩]⟩]⟩]
        Globals.init).payload = true := by
  decide

/-- C5, refuted as stated: with the resource attribute `env = res` and the record
attribute `env = rec`, the merged attributes and the metadata hold `rec`, not `res`. -/
theorem merge_collision_counterexample :
    (copyResourceAttributes [("env".toList, Value.str "res".toList)]
        [("env".toList, Value.str "rec".toList)]).map (fun kv => (kv.1, kv.2.StringVal))
      = [("env".toList, "rec".toList)]
    ∧ (scanAttributes (copyResourceAttributes [("env".toList, Value.str "res".toList)]
        [("env".toList, Value.str "rec".toList)]) Globals.init).metadataMap.find "env".toList
      = some "rec".toList
    ∧ (scanAttributes (copyResourceAttributes [("env".toList, Value.str "res".toList)]
        [("env".toList, Value.str "rec".toList)]) Globals.init).metadataMap.find "env".toList
      ≠ some "res".toList := by
  decide

/-- C5, amended: when the record has an attribute under a key, the copy of the resource
attributes leaves the record's entries under that key as they were (`Insert` adds absent
keys only), and the metadata holds the string of the record's own last entry under it. -/
theorem merge_collision_keeps_record (R A : PMap) (k : Str) (g : Globals)
    (hA : A.has k = true) :
    (copyResourceAttributes R A).filter (fun kv => decide (kv.1 = k))
        = A.filter (fun kv => decide (kv.1 = k))
    ∧ PMap.first (copyResourceAttributes R A) k = PMap.first A k
    ∧ (PMap.last A k).isSome = true
    ∧ (scanAttributes (copyResourceAttributes R A) g).metadataMap.find k
        = (PMap.last A k).map Value.StringVal := by
  refine ⟨copy_filter_of_has R A k hA, ?_, PMap.last_isSome A k hA, ?_⟩
  · obtain ⟨t, ht⟩ := copy_extends R A
    rw [← ht]
    clear ht
    induction A with
    | nil => simp [PMap.has] at hA
    | cons e rest ih =>
      obtain ⟨a, b⟩ := e
      by_cases hk : a = k
      · simp [PMap.first, hk]
      · have hr : PMap.has rest k = true := by
          rw [PMap.has_cons] at hA
          simpa [hk] using hA
        simp [PMap.first, hk, ih hr]
  · rw [scan_metadata_find, copy_last_of_has R A k hA]
    have := PMap.last_isSome A k hA
    cases hl : PMap.last A k with
    | some w => rfl
    | none => simp [hl] at this

/-- C5 amended, at the resource attribute `env = res` and the record attribute
`env = rec`. -/
theorem merge_collision_keeps_record_witness :
    PMap.has [("env".toList, Value.str "rec".toList)] "env".toList = true
    ∧ (scanAttributes (copyResourceAttributes [("env".toList, Value.str "res".toList)]
        [("env".toList, Value.str "rec".toList)]) Globals.init).metadataMap.find "env".toList
      = (PMap.last [("env".toList, Value.str "rec".toList)] "env".toList).map
          Value.StringVal :=
  ⟨by decide,
    (merge_collision_keeps_record [("env".toList, Value.str "res".toList)]
      [("env".toList, Value.str "rec".toList)] "env".toList Globals.init (by decide)).2.2.2⟩

/-- C6: the merge is additive. The record's attributes stay in front of the merged
attributes; every key of the record or of its resource is a key after the merge; and
every such key is a key of the metadata map, whose entry `"key":"value"` is written into
the record's fragment. -/
theorem merge_additive (tbl : Char → Bool) (R A : PMap) (msg : Str) (g : Globals) (k : Str)
    (hk : A.has k = true ∨ R.has k = true) :
    A <+: copyResourceAttributes R A
    ∧ (copyResourceAttributes R A).has k = true
    ∧ ∃ v, (scanAttributes (copyResourceAttributes R A) g).metadataMap.find k = some v
        ∧ jsonEncodeEntry (k, v) <:+:
            fragment (Lib.std tbl) msg (copyResourceAttributes R A) g := by
  have hhas : (copyResourceAttributes R A).has k = true := by
    rcases hk with h | h
    · exact PMap.has_of_extends _ _ _ (copy_extends R A) h
    · exact copy_has_resource R A k h
  refine ⟨copy_extends R A, hhas, ?_⟩
  have hsome := PMap.last_isSome _ k hhas
  cases hl : PMap.last (copyResourceAttributes R A) k with
  | none => simp [hl] at hsome
  | some w =>
    have hf : (scanAttributes (copyResourceAttributes R A) g).metadataMap.find k
        = some w.StringVal := by
      rw [scan_metadata_find, hl]
    exact ⟨w.StringVal, hf, entry_infix_fragment tbl msg _ g k _ hf⟩

/-- C6 at a record with the attribute `a = 1` under a resource with the attribute
`b = 2`, for the resource's key. -/
theorem merge_additive_witness :
    (PMap.has [("a".toList, Value.str "1".toList)] "b".toList = true
      ∨ PMap.has [("b".toList, Value.str "2".toList)] "b".toList = true)
    ∧ (copyResourceAttributes [("b".toList, Value.str "2".toList)]
        [("a".toList, Value.str "1".toList)]).has "b".toList = true :=
  ⟨Or.inr (by decide),
    (merge_additive (fun _ => false) [("b".toList, Value.str "2".toList)]
      [("a".toList, Value.str "1".toList)] "m".toList Globals.init "b".toList
      (Or.inr (by decide))).2.1⟩

/-- C7, refuted as stated: under a resource with `hostname = host-01`, a record that
carries its own attribute `hostname = other` gets the identity value `other`. -/
theorem resourceId_counterexample :
    (scanAttributes (copyResourceAttributes [(hostname, Value.str "host-01".toList)]
        [(hostname, Value.str "other".toList)]) Globals.init).resourceMapperMap.get
        hostnameProperty = "other".toList
    ∧ fragment (Lib.std (fun _ => false)) "m".toList
        (copyResourceAttributes [(hostname, Value.str "host-01".toList)]
          [(hostname, Value.str "other".toList)]) Globals.init
      = tempPayload "m".toList hostnameProperty "other".toList
          ",\n\"_lm.logsource_type\":\"logfile\",\"hostname\":\"other\"".toList
    ∧ fragment (Lib.std (fun _ => false)) "m".toList
        (copyResourceAttributes [(hostname, Value.str "host-01".toList)]
          [(hostname, Value.str "other".toList)]) Globals.init
      ≠ tempPayload "m".toList hostnameProperty "host-01".toList
          ",\n\"_lm.logsource_type\":\"logfile\",\"hostname\":\"other\"".toList := by
  decide

/-- C7, amended: for a string `v` without quote, backslash and control characters, a
resource whose first `hostname` attribute is the string `v` and a record without a
`hostname` attribute of its own, the fragment is the template filled with the identity
pair `system.hostname`, `v`, and `v` is JSON string content that denotes `v`; the other
attributes of the record, the body and the identity state before play no part. -/
theorem resourceId_hostname (tbl : Char → Bool) (v : Str) (R A : PMap) (msg : Str)
    (g : Globals)
    (hv : ∀ c ∈ v, c ≠ '"' ∧ c ≠ '\\' ∧ 0x20 ≤ c.toNat)
    (hR : PMap.first R hostname = some (Value.str v))
    (hA : A.has hostname = false) :
    fragment (Lib.std tbl) msg (copyResourceAttributes R A) g =
        tempPayload (escapedMsg (Lib.std tbl) msg) hostnameProperty v
          (spliceOf (scanAttributes (copyResourceAttributes R A) g).metadataMap)
    ∧ jsonDecodeString v = some v := by
  refine ⟨?_, decode_plain_text v hv⟩
  have hl : PMap.last (copyResourceAttributes R A) hostname = some (Value.str v) := by
    rw [copy_last_of_not_has R A hostname hA, hR]
  have hid := range_identity (copyResourceAttributes R A)
    { resourceMapperMap := g.resourceMapperMap, resourceMapperKey := g.resourceMapperKey,
      metadataMap := GoMap.set [] logsourceKey logsourceValue }
  rw [hl] at hid
  have hkey : (scanAttributes (copyResourceAttributes R A) g).resourceMapperKey
      = hostnameProperty := hid.1
  have hval : (scanAttributes (copyResourceAttributes R A) g).resourceMapperMap.get
      hostnameProperty = v := hid.2
  rw [fragment_std, hkey, hval]

/-- C7 amended, at `v = host-01`, a record with the attribute `level = info`. -/
theorem resourceId_hostname_witness :
    (∀ c ∈ "host-01".toList, c ≠ '"' ∧ c ≠ '\\' ∧ 0x20 ≤ c.toNat)
    ∧ PMap.first [(hostname, Value.str "host-01".toList)] hostname
        = some (Value.str "host-01".toList)
    ∧ PMap.has [("level".toList, Value.str "info".toList)] hostname = false
    ∧ fragment (Lib.std (fun _ => false)) "m".toList
        (copyResourceAttributes [(hostname, Value.str "host-01".toList)]
          [("level".toList, Value.str "info".toList)]) Globals.init =
        tempPayload (escapedMsg (Lib.std (fun _ => false)) "m".toList) hostnameProperty
          "host-01".toList
          (spliceOf (scanAttributes
            (copyResourceAttributes [(hostname, Value.str "host-01".toList)]
              [("level".toList, Value.str "info".toList)]) Globals.init).metadataMap) :=
  ⟨by decide, rfl, by decide,
    (resourceId_hostname (fun _ => false) "host-01".toList
      [(hostname, Value.str "host-01".toList)] [("level".toList, Value.str "info".toList)]
      "m".toList Globals.init (by decide) rfl (by decide)).1⟩

/-- C8, refuted as stated: a record with the attribute `_lm.logsource_type = other` gets
the metadata value `other` under that key, not `logfile`. -/
theorem logsource_counterexample :
    (scanAttributes [(logsourceKey, Value.str "other".toList)] Globals.init).metadataMap.find
        logsourceKey = some "other".toList
    ∧ (scanAttributes [(logsourceKey, Value.str "other".toList)] Globals.init).metadataMap.find
        logsourceKey ≠ some logsourceValue
    ∧ fragment (Lib.std (fun _ => false)) "m".toList
        [(logsourceKey, Value.str "other".toList)] Globals.init
      = tempPayload "m".toList [] [] ",\n\"_lm.logsource_type\":\"other\"".toList := by
  decide

/-- C8, amended: the key `_lm.logsource_type` is always a key of the metadata and its
entry is written into the fragment; its value is `logfile` when no merged attribute has
that key (which is when `PMap.last` finds none), and the string of the last merged
attribute with that key otherwise. -/
theorem logsource_field (tbl : Char → Bool) (msg : Str) (attrs : PMap) (g : Globals) :
    (scanAttributes attrs g).metadataMap.find logsourceKey =
        some (match PMap.last attrs logsourceKey with
          | some v => v.StringVal
          | none => logsourceValue)
    ∧ jsonEncodeEntry (logsourceKey, match PMap.last attrs logsourceKey with
          | some v => v.StringVal
          | none => logsourceValue) <:+: fragment (Lib.std tbl) msg attrs g
    ∧ (PMap.last attrs logsourceKey = none ↔ attrs.has logsourceKey = false) := by
  have hf : (scanAttributes attrs g).metadataMap.find logsourceKey =
        some (match PMap.last attrs logsourceKey with
          | some v => v.StringVal
          | none => logsourceValue) := by
    rw [scan_metadata_find]
    cases PMap.last attrs logsourceKey with
    | some w => rfl
    | none => simp
  exact ⟨hf, entry_infix_fragment tbl msg attrs g _ _ hf, PMap.last_eq_none_iff _ _⟩

/-- C9, refuted as stated: for a record without any attribute the fragment carries the
splice with the source-classification entry; it is not the fragment without a splice. -/
theorem empty_attributes_counterexample :
    fragment (Lib.std (fun _ => false)) "m".toList [] Globals.init
      = tempPayload "m".toList [] [] ",\n\"_lm.logsource_type\":\"logfile\"".toList
    ∧ fragment (Lib.std (fun _ => false)) "m".toList [] Globals.init
      ≠ tempPayload "m".toList [] [] [] := by
  decide

/-- C9, amended: for a record whose merged attribute set is empty the fragment is the
template with the escaped body, the identity pair of the state before, and the splice
made of a comma, a newline and the one entry `"_lm.logsource_type":"logfile"`: the
splice is present, and it is no empty object. -/
theorem empty_attributes_fragment (tbl : Char → Bool) (msg : Str) (g : Globals) :
    fragment (Lib.std tbl) msg [] g =
      tempPayload (escapedMsg (Lib.std tbl) msg) g.resourceMapperKey
        (g.resourceMapperMap.get g.resourceMapperKey)
        ",\n\"_lm.logsource_type\":\"logfile\"".toList := by
  rw [fragment_std]
  have hs : scanAttributes [] g =
      { resourceMapperMap := g.resourceMapperMap, resourceMapperKey := g.resourceMapperKey,
        metadataMap := [(logsourceKey, logsourceValue)] } := rfl
  rw [hs]
  have hsp : spliceOf [(logsourceKey, logsourceValue)]
      = ",\n\"_lm.logsource_type\":\"logfile\"".toList := by decide
  rw [hsp]

/-! ### Delivery and construction -/

theorem append_single_ne {α : Type} (l : List α) (x : α) : l ++ [x] ≠ l := by
  intro h
  have := congrArg List.length h
  simp at this

/-- The world after the request has been issued and one entry has been logged. -/
theorem export_of_transport_error (unmarshal : Unmarshaller) (e : logsExporter)
    (payload : Str) (w : World) (err : Str)
    (hc : e.client w.sent (exportRequest e payload) = Except.error err) :
    logsExporter.export unmarshal e payload w =
      ⟨none, 0, some err, ⟨w.sent ++ [exportRequest e payload],
        w.logged ++ [⟨"error caught in http request of logs exporter".toList, err⟩]⟩⟩ := by
  unfold logsExporter.export
  simp only [hc]

theorem export_of_parse_error (unmarshal : Unmarshaller) (e : logsExporter)
    (payload : Str) (w : World) (resp : Response) (err : Str)
    (hc : e.client w.sent (exportRequest e payload) = Except.ok resp)
    (hu : unmarshal resp.Body = Except.error err) :
    logsExporter.export unmarshal e payload w =
      ⟨resp.Body, resp.StatusCode, some err, ⟨w.sent ++ [exportRequest e payload],
        w.logged ++ [⟨"error unmarshalling response".toList, err⟩]⟩⟩ := by
  unfold logsExporter.export
  simp only [hc, hu]

theorem export_of_bad_status (unmarshal : Unmarshaller) (e : logsExporter)
    (payload : Str) (w : World) (resp : Response) (rb : responseBody)
    (hc : e.client w.sent (exportRequest e payload) = Except.ok resp)
    (hu : unmarshal resp.Body = Except.ok rb)
    (hs : ¬ (resp.StatusCode = 200 ∨ resp.StatusCode = 202)) :
    logsExporter.export unmarshal e payload w =
      ⟨resp.Body, resp.StatusCode, none, ⟨w.sent ++ [exportRequest e payload],
        w.logged ++ [⟨"error caught while sending logs with response ".toList,
          rb.Message⟩]⟩⟩ := by
  unfold logsExporter.export
  simp only [hc, hu, hs, not_false_eq_true, if_true]

theorem export_of_good_status (unmarshal : Unmarshaller) (e : logsExporter)
    (payload : Str) (w : World) (resp : Response) (rb : responseBody)
    (hc : e.client w.sent (exportRequest e payload) = Except.ok resp)
    (hu : unmarshal resp.Body = Except.ok rb)
    (hs : resp.StatusCode = 200 ∨ resp.StatusCode = 202) :
    logsExporter.export unmarshal e payload w =
      ⟨none, 0, none, ⟨w.sent ++ [exportRequest e payload], w.logged⟩⟩ := by
  unfold logsExporter.export
  simp only [hc, hu, hs, not_true_eq_false, if_false]

/-- C11: `export` reports success (no log entry, result `(nil, 0, nil)`) exactly when the
request meets no transport error, the body unmarshals and the status is 200 or 202; in
every other case it writes exactly one error entry. When the body does not unmarshal the
result carries that error and the entry is the one of line 101, whatever the status. -/
theorem export_success_iff (unmarshal : Unmarshaller) (e : logsExporter) (payload : Str)
    (w : World) :
    (((logsExporter.export unmarshal e payload w).world.logged = w.logged
        ∧ (logsExporter.export unmarshal e payload w).body = none
        ∧ (logsExporter.export unmarshal e payload w).status = 0
        ∧ (logsExporter.export unmarshal e payload w).err = none)
      ↔ deliveryOk unmarshal e payload w = true)
    ∧ (∃ entries, (logsExporter.export unmarshal e payload w).world.logged
          = w.logged ++ entries
        ∧ entries.length = if deliveryOk unmarshal e payload w = true then 0 else 1)
    ∧ (∀ resp err, e.client w.sent (exportRequest e payload) = Except.ok resp →
        unmarshal resp.Body = Except.error err →
        (logsExporter.export unmarshal e payload w).err = some err
        ∧ (logsExporter.export unmarshal e payload w).world.logged
            = w.logged ++ [⟨"error unmarshalling response".toList, err⟩]) := by
  refine ⟨?_, ?_, ?_⟩
  · cases hc : e.client w.sent (exportRequest e payload) with
    | error err =>
      rw [export_of_transport_error unmarshal e payload w err hc]
      simp [deliveryOk, hc, append_single_ne]
    | ok resp =>
      cases hu : unmarshal resp.Body with
      | error err =>
        rw [export_of_parse_error unmarshal e payload w resp err hc hu]
        simp [deliveryOk, hc, hu, append_single_ne]
      | ok rb =>
        by_cases hs : resp.StatusCode = 200 ∨ resp.StatusCode = 202
        · rw [export_of_good_status unmarshal e payload w resp rb hc hu hs]
          simp [deliveryOk, hc, hu, hs]
        · rw [export_of_bad_status unmarshal e payload w resp rb hc hu hs]
          simp only [deliveryOk, hc, hu, hs, decide_False]
          simp [append_single_ne]
  · cases hc : e.client w.sent (exportRequest e payload) with
    | error err =>
      rw [export_of_transport_error unmarshal e payload w err hc]
      exact ⟨[_], rfl, by simp [deliveryOk, hc]⟩
    | ok resp =>
      cases hu : unmarshal resp.Body with
      | error err =>
        rw [export_of_parse_error unmarshal e payload w resp err hc hu]
        exact ⟨[_], rfl, by simp [deliveryOk, hc, hu]⟩
      | ok rb =>
        by_cases hs : resp.StatusCode = 200 ∨ resp.StatusCode = 202
        · rw [export_of_good_status unmarshal e payload w resp rb hc hu hs]
          exact ⟨[], by simp, by simp [deliveryOk, hc, hu, hs]⟩
        · rw [export_of_bad_status unmarshal e payload w resp rb hc hu hs]
          refine ⟨[_], rfl, ?_⟩
          simp only [deliveryOk, hc, hu, hs, decide_False]
          simp
  · intro resp err hc hu
    rw [export_of_parse_error unmarshal e payload w resp err hc hu]
    exact ⟨rfl, rfl⟩

/-- C11 at a response with status 200 whose body is not JSON: no success, the entry of
line 101 is written. -/
theorem export_success_iff_witness :
    (logsExporter.export sampleUnmarshal ⟨⟨[], [], []⟩, constClient "oops".toList 200⟩ []
        ⟨[], []⟩).err = some "unsupported body".toList
    ∧ (logsExporter.export sampleUnmarshal ⟨⟨[], [], []⟩, constClient "oops".toList 200⟩ []
        ⟨[], []⟩).world.logged
      = [] ++ [⟨"error unmarshalling response".toList, "unsupported body".toList⟩] :=
  (export_success_iff sampleUnmarshal ⟨⟨[], [], []⟩, constClient "oops".toList 200⟩ []
    ⟨[], []⟩).2.2 ⟨some "oops".toList, 200⟩ "unsupported body".toList rfl rfl

/-- C12: when the body unmarshals to a message `m`, `export` issues exactly one request
and logs, for a status other than 200 and 202, exactly one error whose text is `m`, and
for the status 200 or 202 nothing. -/
theorem export_status_logging (unmarshal : Unmarshaller) (e : logsExporter) (payload : Str)
    (w : World) (resp : Response) (m : Str)
    (hc : e.client w.sent (exportRequest e payload) = Except.ok resp)
    (hu : unmarshal resp.Body = Except.ok ⟨m⟩) :
    (logsExporter.export unmarshal e payload w).world.sent
      = w.sent ++ [exportRequest e payload]
    ∧ (logsExporter.export unmarshal e payload w).world.logged
      = w.logged ++
        (if resp.StatusCode = 200 ∨ resp.StatusCode = 202 then []
          else [⟨"error caught while sending logs with response ".toList, m⟩]) := by
  by_cases hs : resp.StatusCode = 200 ∨ resp.StatusCode = 202
  · rw [export_of_good_status unmarshal e payload w resp ⟨m⟩ hc hu hs]
    simp [hs]
  · rw [export_of_bad_status unmarshal e payload w resp ⟨m⟩ hc hu hs]
    simp [hs]

/-- C12 at the status 500 with the body `{"message":"server error"}` and at the status
202 with the body `{"message":"accepted"}`, from a world without requests and entries. -/
theorem export_status_logging_witness :
    ((logsExporter.export sampleUnmarshal
          (sampleExporter "\x7b\"message\":\"server error\"\x7d".toList 500) "[\n]\n".toList
          ⟨[], []⟩).world.sent
        = [] ++ [exportRequest
            (sampleExporter "\x7b\"message\":\"server error\"\x7d".toList 500)
            "[\n]\n".toList]
      ∧ (logsExporter.export sampleUnmarshal
          (sampleExporter "\x7b\"message\":\"server error\"\x7d".toList 500) "[\n]\n".toList
          ⟨[], []⟩).world.logged
        = [] ++ [⟨"error caught while sending logs with response ".toList,
            "server error".toList⟩])
    ∧ (logsExporter.export sampleUnmarshal
          (sampleExporter "\x7b\"message\":\"accepted\"\x7d".toList 202) "[\n]\n".toList
          ⟨[], []⟩).world.logged = [] ++ [] :=
  ⟨export_status_logging sampleUnmarshal
      (sampleExporter "\x7b\"message\":\"server error\"\x7d".toList 500) "[\n]\n".toList
      ⟨[], []⟩ ⟨some "\x7b\"message\":\"server error\"\x7d".toList, 500⟩
      "server error".toList rfl rfl,
    (export_status_logging sampleUnmarshal
      (sampleExporter "\x7b\"message\":\"accepted\"\x7d".toList 202) "[\n]\n".toList
      ⟨[], []⟩ ⟨some "\x7b\"message\":\"accepted\"\x7d".toList, 202⟩
      "accepted".toList rfl rfl).2⟩

/-- C13, refuted as stated: with the empty URL the constructor succeeds. -/
theorem newLogsExporter_empty_url :
    (newLogsExporter sampleURLParse (fun _ _ => deadClient) ⟨[], [], []⟩).isOk = true
    ∧ notAbsolute sampleURLParse [] = true := by
  decide

/-- C13, amended: the constructor fails, with the error `URL must be a valid`, exactly
when the URL is not empty and is not an absolute URL with scheme and host (it fails to
parse, or has no scheme, or has no host); otherwise, so also for the empty URL, it
succeeds and the exporter holds the configuration. -/
theorem newLogsExporter_fails_iff (urlParse : Str → Except Str URL)
    (mk : Str → List (Str × Str) → HttpClient) (cfg : Config) :
    ((newLogsExporter urlParse mk cfg).isOk = false
      ↔ (cfg.URL ≠ [] ∧ notAbsolute urlParse cfg.URL = true))
    ∧ (match newLogsExporter urlParse mk cfg with
        | Except.error msg => msg = "URL must be a valid".toList
        | Except.ok e => e.config = cfg ∧ e.client = mk cfg.APIToken cfg.Headers) := by
  unfold newLogsExporter notAbsolute
  by_cases h0 : cfg.URL = []
  · simp [h0, Except.isOk, Except.toBool]
  · cases hp : urlParse cfg.URL with
    | error err => simp [h0, Except.isOk, Except.toBool]
    | ok u =>
      by_cases hu : u.Scheme = [] ∨ u.Host = []
      · simp [h0, hu, Except.isOk, Except.toBool]
      · simp [h0, hu, Except.isOk, Except.toBool]

/-- C14: whatever the client and the unmarshaller do, `PushLogData` hands back a nil
error and the same result as without delivery; the goroutine's own result, error
included, goes nowhere. Shown also at a dead client, at a body that does not unmarshal
and at the status 500, where the delivery ends in an error entry. -/
theorem pushLogData_returns_nil (lib : Lib) (unmarshal : Unmarshaller) (e : logsExporter)
    (lg : Logs) (g : Globals) (w : World) :
    (pushAndDeliver lib unmarshal e lg g w).1.err = none
    ∧ (pushAndDeliver lib unmarshal e lg g w).1 = PushLogData lib lg g
    ∧ (pushAndDeliver lib unmarshal e lg g w).2
        = logsExporter.export unmarshal e (PushLogData lib lg g).payload w
    ∧ ((pushAndDeliver lib sampleUnmarshal ⟨⟨[], [], []⟩, deadClient⟩ lg g w).1.err = none
      ∧ (pushAndDeliver lib sampleUnmarshal ⟨⟨[], [], []⟩, deadClient⟩ lg g w).2.err
          = some "connection refused".toList)
    ∧ ((pushAndDeliver lib sampleUnmarshal (sampleExporter "oops".toList 200) lg g w).1.err
          = none
      ∧ (pushAndDeliver lib sampleUnmarshal (sampleExporter "oops".toList 200) lg g w).2.err
          = some "unsupported body".toList)
    ∧ ((pushAndDeliver lib sampleUnmarshal
          (sampleExporter "\x7b\"message\":\"server error\"\x7d".toList 500) lg g w).1.err
          = none
      ∧ (pushAndDeliver lib sampleUnmarshal
          (sampleExporter "\x7b\"message\":\"server error\"\x7d".toList 500)
          lg g w).2.world.logged
          = w.logged ++ [⟨"error caught while sending logs with response ".toList,
              "server error".toList⟩]) := by
  refine ⟨rfl, rfl, rfl, ⟨rfl, rfl⟩, ⟨rfl, rfl⟩, ⟨rfl, ?_⟩⟩
  show (logsExporter.export sampleUnmarshal _ _ w).world.logged = _
  rw [export_of_bad_status sampleUnmarshal _ _ w
    ⟨some "\x7b\"message\":\"server error\"\x7d".toList, 500⟩ ⟨"server error".toList⟩
    rfl rfl (by decide)]

/-- C19: for a response whose body unmarshals and whose status is neither 200 nor 202,
`export` returns the response body, the status code and a nil error; the error it
returns is non-nil exactly on a transport failure or an unmarshalling failure. -/
theorem export_error_component (unmarshal : Unmarshaller) (e : logsExporter) (payload : Str)
    (w : World) :
    (∀ resp rb, e.client w.sent (exportRequest e payload) = Except.ok resp →
        unmarshal resp.Body = Except.ok rb →
        ¬ (resp.StatusCode = 200 ∨ resp.StatusCode = 202) →
        (logsExporter.export unmarshal e payload w).body = resp.Body
        ∧ (logsExporter.export unmarshal e payload w).status = resp.StatusCode
        ∧ (logsExporter.export unmarshal e payload w).err = none)
    ∧ ((logsExporter.export unmarshal e payload w).err ≠ none
      ↔ ((∃ err, e.client w.sent (exportRequest e payload) = Except.error err)
        ∨ (∃ resp err, e.client w.sent (exportRequest e payload) = Except.ok resp
            ∧ unmarshal resp.Body = Except.error err))) := by
  constructor
  · intro resp rb hc hu hs
    rw [export_of_bad_status unmarshal e payload w resp rb hc hu hs]
    exact ⟨rfl, rfl, rfl⟩
  · cases hc : e.client w.sent (exportRequest e payload) with
    | error err =>
      rw [export_of_transport_error unmarshal e payload w err hc]
      simp
    | ok resp =>
      cases hu : unmarshal resp.Body with
      | error err =>
        rw [export_of_parse_error unmarshal e payload w resp err hc hu]
        simp [hu]
      | ok rb =>
        by_cases hs : resp.StatusCode = 200 ∨ resp.StatusCode = 202
        · rw [export_of_good_status unmarshal e payload w resp rb hc hu hs]
          simp [hu]
        · rw [export_of_bad_status unmarshal e payload w resp rb hc hu hs]
          simp [hu]

/-- C19 at the status 500 with the body `{"message":"server error"}`. -/
theorem export_error_component_witness :
    (logsExporter.export sampleUnmarshal
        (sampleExporter "\x7b\"message\":\"server error\"\x7d".toList 500) "[\n]\n".toList
        ⟨[], []⟩).body = some "\x7b\"message\":\"server error\"\x7d".toList
    ∧ (logsExporter.export sampleUnmarshal
        (sampleExporter "\x7b\"message\":\"server error\"\x7d".toList 500) "[\n]\n".toList
        ⟨[], []⟩).status = 500
    ∧ (logsExporter.export sampleUnmarshal
        (sampleExporter "\x7b\"message\":\"server error\"\x7d".toList 500) "[\n]\n".toList
        ⟨[], []⟩).err = none :=
  (export_error_component sampleUnmarshal
    (sampleExporter "\x7b\"message\":\"server error\"\x7d".toList 500) "[\n]\n".toList
    ⟨[], []⟩).1 ⟨some "\x7b\"message\":\"server error\"\x7d".toList, 500⟩
    ⟨"server error".toList⟩ rfl rfl (by decide)

/-! ### The metadata map at the emptiness test, values that are not strings -/

/-- Every entry of the metadata map is written between the braces of the object. -/
theorem entry_infix_members (m : GoMap) (k v : Str) (h : m.find k = some v) :
    jsonEncodeEntry (k, v) <:+: trimEnds (jsonEncodeMap m) := by
  have hm : jsonEncodeEntry (k, v) ∈ (sortByKey m).map jsonEncodeEntry :=
    List.mem_map_of_mem _ ((mem_sortByKey _ _).mpr (GoMap.mem_of_find m k v h))
  rw [trimEnds_jsonEncodeMap]
  exact infix_intercalate ",".toList _ _ hm

/-- C18: in every call of `createPayload` the metadata map is not empty where its length
is tested, since it holds the key `_lm.logsource_type`; the splice is therefore never
the empty one of the omitted branch, and every fragment carries a splice that starts
with a comma and a newline and contains the entry of that key. -/
theorem metadata_never_empty (lib : Lib) (tbl : Char → Bool) (msg : Str) (attrs : PMap)
    (g : Globals) :
    (scanAttributes attrs g).metadataMap.length ≠ 0
    ∧ metadataSplice lib (scanAttributes attrs g).metadataMap ≠ some []
    ∧ ∃ v, (scanAttributes attrs g).metadataMap.find logsourceKey = some v
        ∧ fragment (Lib.std tbl) msg attrs g =
            tempPayload (escapedMsg (Lib.std tbl) msg)
              (scanAttributes attrs g).resourceMapperKey
              ((scanAttributes attrs g).resourceMapperMap.get
                (scanAttributes attrs g).resourceMapperKey)
              (",\n".toList ++ trimEnds (jsonEncodeMap (scanAttributes attrs g).metadataMap))
        ∧ jsonEncodeEntry (logsourceKey, v) <:+:
            trimEnds (jsonEncodeMap (scanAttributes attrs g).metadataMap) := by
  have hlen := scan_metadata_length attrs g
  refine ⟨hlen, ?_, ?_⟩
  · unfold metadataSplice Marshal
    rw [if_pos hlen]
    cases lib.marshalErr (scanAttributes attrs g).metadataMap with
    | some e => simp
    | none => simp
  · have hf := scan_metadata_find attrs g logsourceKey
    cases hl : PMap.last attrs logsourceKey with
    | some w =>
      rw [hl] at hf
      exact ⟨w.StringVal, hf, fragment_std tbl msg attrs g, entry_infix_members _ _ _ hf⟩
    | none =>
      rw [hl] at hf
      simp only [if_true] at hf
      exact ⟨logsourceValue, hf, fragment_std tbl msg attrs g, entry_infix_members _ _ _ hf⟩

theorem StringVal_of_not_string (v : Value) (hv : v.isString = false) : v.StringVal = [] := by
  cases v <;> simp [Value.isString] at hv <;> rfl

theorem escapedMsg_nil (lib : Lib) : escapedMsg lib [] = [] := rfl

/-- The identity after the scan, from the state before and the last `hostname` attribute. -/
theorem scan_identity (attrs : PMap) (g : Globals) :
    match PMap.last attrs hostname with
    | some v =>
      (scanAttributes attrs g).resourceMapperKey = hostnameProperty
      ∧ (scanAttributes attrs g).resourceMapperMap.get hostnameProperty = v.StringVal
    | none =>
      (scanAttributes attrs g).resourceMapperKey = g.resourceMapperKey
      ∧ (scanAttributes attrs g).resourceMapperMap = g.resourceMapperMap :=
  range_identity attrs
    { resourceMapperMap := g.resourceMapperMap, resourceMapperKey := g.resourceMapperKey,
      metadataMap := GoMap.set [] logsourceKey logsourceValue }

/-- C20: a value that is not of string type counts as the empty string. The callback
stores `""` under the attribute's key and, for the key `hostname`, sets the identity
value to `""`; after the scan of an attribute set in which the attribute is the last
one under its key the metadata entry is `""` and is written as such into the fragment,
and the identity value is `""` if the key is `hostname`; a record whose body is not a
string is encoded with the empty message. -/
theorem non_string_is_empty (tbl : Char → Bool) (v : Value) (k : Str) (attrs R : PMap)
    (g : Globals) (hv : v.isString = false) :
    (rangeOverAttributesMap k v g).metadataMap.find k = some []
    ∧ ((rangeOverAttributesMap hostname v g).resourceMapperKey = hostnameProperty
      ∧ (rangeOverAttributesMap hostname v g).resourceMapperMap.get hostnameProperty = [])
    ∧ (PMap.last attrs k = some v →
        (scanAttributes attrs g).metadataMap.find k = some []
        ∧ ∀ msg, jsonEncodeEntry (k, []) <:+: fragment (Lib.std tbl) msg attrs g)
    ∧ (PMap.last attrs hostname = some v →
        (scanAttributes attrs g).resourceMapperKey = hostnameProperty
        ∧ (scanAttributes attrs g).resourceMapperMap.get hostnameProperty = [])
    ∧ flattenRecords [⟨R, [⟨[⟨v, attrs⟩]⟩]⟩] = [([], copyResourceAttributes R attrs)]
    ∧ ∃ rest, fragment (Lib.std tbl) v.StringVal attrs g = msgPrefix ++ '"' :: rest := by
  have hs := StringVal_of_not_string v hv
  refine ⟨?_, ⟨?_, ?_⟩, ?_, ?_, ?_, ?_⟩
  · rw [rangeOver_metadata, GoMap.find_set, hs]
    simp
  · simp [rangeOverAttributesMap]
  · simp [rangeOverAttributesMap, GoMap.get_set_self, hs]
  · intro hl
    have hf : (scanAttributes attrs g).metadataMap.find k = some [] := by
      rw [scan_metadata_find, hl]
      simp only [hs]
    exact ⟨hf, fun msg => entry_infix_fragment tbl msg attrs g k [] hf⟩
  · intro hl
    have h := scan_identity attrs g
    rw [hl] at h
    simp only [hs] at h
    exact h
  · simp [flattenRecords, hs]
  · obtain ⟨rest, hrest⟩ := fragment_msg tbl v.StringVal attrs g
    refine ⟨rest, ?_⟩
    rw [hrest, hs, escapedMsg_nil]
    simp

/-- C20 at the integer value 3: as the attribute `hostname` of a record, and as a body. -/
theorem non_string_is_empty_witness :
    Value.isString (Value.int 3) = false
    ∧ (scanAttributes [(hostname, Value.int 3)] Globals.init).metadataMap.find hostname
        = some []
    ∧ ((scanAttributes [(hostname, Value.int 3)] Globals.init).resourceMapperKey
        = hostnameProperty
      ∧ (scanAttributes [(hostname, Value.int 3)] Globals.init).resourceMapperMap.get
          hostnameProperty = []) :=
  ⟨rfl,
    ((non_string_is_empty (fun _ => false) (Value.int 3) hostname
      [(hostname, Value.int 3)] [] Globals.init rfl).2.2.1 rfl).1,
    (non_string_is_empty (fun _ => false) (Value.int 3) hostname
      [(hostname, Value.int 3)] [] Globals.init rfl).2.2.2.1 rfl⟩

/-! ### The identity state across calls -/

theorem stateAfter_eq_scan (lib : Lib) (msg : Str) (attrs : PMap) (g : Globals) :
    stateAfter lib msg attrs g = scanAttributes attrs g := by
  simp only [stateAfter, createPayload]
  split <;> rfl

theorem range_metadata_congr (attrs : PMap) (g h : Globals)
    (hm : g.metadataMap = h.metadataMap) :
    (attrs.Range rangeOverAttributesMap g).metadataMap
      = (attrs.Range rangeOverAttributesMap h).metadataMap := by
  induction attrs generalizing g h with
  | nil => exact hm
  | cons e rest ih =>
    obtain ⟨a, b⟩ := e
    rw [range_cons, range_cons]
    apply ih
    rw [rangeOver_metadata, rangeOver_metadata, hm]

/-- The metadata map after the scan does not depend on the state before. -/
theorem scan_metadata_eq (attrs : PMap) (g : Globals) :
    (scanAttributes attrs g).metadataMap = metadataOf attrs := by
  unfold metadataOf scanAttributes
  exact range_metadata_congr attrs _ _ rfl

/-- The package state after the loops of `PushLogData` is the one the scans of the
records leave, one after the other. -/
theorem foldl_createPayload_state (lib : Lib) (recs : List (Str × PMap)) (p : Str)
    (g : Globals) :
    (recs.foldl (fun acc r => createPayload lib r.1 acc.1 r.2 acc.2) (p, g)).2
      = stateAfterAll lib recs g := by
  induction recs generalizing p g with
  | nil => rfl
  | cons r rest ih =>
    have hst : createPayload lib r.1 p r.2 g =
        ((createPayload lib r.1 p r.2 g).1, stateAfter lib r.1 r.2 g) := by
      rw [← createPayload_state lib r.1 p r.2 g]
    rw [List.foldl_cons]
    show (List.foldl _ (createPayload lib r.1 p r.2 g) rest).2 = _
    rw [hst, ih]
    rfl

theorem pushLogData_globals (lib : Lib) (lg : Logs) (g : Globals) :
    (PushLogData lib lg g).globals = stateAfterAll lib (flattenRecords lg) g := by
  unfold PushLogData
  simp only [loops_eq_foldl]
  exact foldl_createPayload_state lib _ [] g

/-- The identity after a list of records, from the identity before and the last host
name seen in them. -/
theorem stateAfterAll_identity (lib : Lib) (recs : List (Str × PMap)) (g : Globals) :
    match lastSeen (recs.map Prod.snd) with
    | some v =>
      (stateAfterAll lib recs g).resourceMapperKey = hostnameProperty
      ∧ (stateAfterAll lib recs g).resourceMapperMap.get hostnameProperty = v.StringVal
    | none =>
      (stateAfterAll lib recs g).resourceMapperKey = g.resourceMapperKey
      ∧ (stateAfterAll lib recs g).resourceMapperMap = g.resourceMapperMap := by
  induction recs generalizing g with
  | nil => exact ⟨rfl, rfl⟩
  | cons r rest ih =>
    have h := ih (scanAttributes r.2 g)
    have hcons : stateAfterAll lib (r :: rest) g
        = stateAfterAll lib rest (scanAttributes r.2 g) := by
      show stateAfterAll lib rest (stateAfter lib r.1 r.2 g) = _
      rw [stateAfter_eq_scan]
    rw [hcons]
    simp only [List.map_cons, lastSeen]
    cases hl : lastSeen (rest.map Prod.snd) with
    | some w =>
      rw [hl] at h
      exact h
    | none =>
      rw [hl] at h
      have h1 : (stateAfterAll lib rest (scanAttributes r.2 g)).resourceMapperKey
          = (scanAttributes r.2 g).resourceMapperKey := h.1
      have h2 : (stateAfterAll lib rest (scanAttributes r.2 g)).resourceMapperMap
          = (scanAttributes r.2 g).resourceMapperMap := h.2
      have hs := scan_identity r.2 g
      cases hp : PMap.last r.2 hostname with
      | some x =>
        rw [hp] at hs
        show _ = _ ∧ _ = _
        rw [h1, h2]
        exact hs
      | none =>
        rw [hp] at hs
        show _ = _ ∧ _ = _
        rw [h1, h2]
        exact hs

theorem scan_without_hostname (attrs : PMap) (g : Globals) (h : attrs.has hostname = false) :
    (scanAttributes attrs g).resourceMapperKey = g.resourceMapperKey
    ∧ (scanAttributes attrs g).resourceMapperMap = g.resourceMapperMap := by
  have hs := scan_identity attrs g
  rw [PMap.last_eq_none attrs hostname h] at hs
  exact hs

theorem fragmentsFrom_append (lib : Lib) (pre post : List (Str × PMap)) (g : Globals) :
    fragmentsFrom lib (pre ++ post) g
      = fragmentsFrom lib pre g ++ fragmentsFrom lib post (stateAfterAll lib pre g) := by
  induction pre generalizing g with
  | nil => rfl
  | cons r rest ih =>
    show fragment lib r.1 r.2 g
        :: fragmentsFrom lib (rest ++ post) (stateAfter lib r.1 r.2 g) = _
    rw [ih]
    rfl

/-- Records without a `hostname` attribute are all encoded with the identity pair of the
state before them, and leave it as it is. -/
theorem fragments_without_hostname (tbl : Char → Bool) (pre : List (Str × PMap))
    (g : Globals) (key : Str) (m : GoMap)
    (hk : g.resourceMapperKey = key) (hm : g.resourceMapperMap = m)
    (hpre : ∀ r ∈ pre, PMap.has r.2 hostname = false) :
    fragmentsFrom (Lib.std tbl) pre g
        = pre.map (fun r => tempPayload (escapedMsg (Lib.std tbl) r.1) key (m.get key)
            (spliceOf (metadataOf r.2)))
    ∧ (stateAfterAll (Lib.std tbl) pre g).resourceMapperKey = key
    ∧ (stateAfterAll (Lib.std tbl) pre g).resourceMapperMap = m := by
  induction pre generalizing g with
  | nil => exact ⟨rfl, hk, hm⟩
  | cons r rest ih =>
    have hr := hpre r (List.mem_cons_self r rest)
    have hscan := scan_without_hostname r.2 g hr
    have hnext := ih (stateAfter (Lib.std tbl) r.1 r.2 g)
      (by rw [stateAfter_eq_scan, hscan.1, hk]) (by rw [stateAfter_eq_scan, hscan.2, hm])
      (fun x hx => hpre x (List.mem_cons_of_mem r hx))
    refine ⟨?_, hnext.2.1, hnext.2.2⟩
    simp only [fragmentsFrom, List.map_cons]
    rw [hnext.1, fragment_std, hscan.1, hscan.2, hk, hm, scan_metadata_eq]

/-- C16: the identity is not reset between calls. After `PushLogData` the identity is
the pair of `system.hostname` and the string of the last `hostname` attribute met in the
records' merged attributes, in traversal order, and is what it was before when no record
has one; and in a following call the records that come before any `hostname` attribute
are all encoded with the identity pair the previous call left. -/
theorem identity_persists (lib : Lib) (tbl : Char → Bool) (lg : Logs) (g : Globals)
    (lg2 : Logs) (pre post : List (Str × PMap))
    (hsplit : flattenRecords lg2 = pre ++ post)
    (hpre : ∀ r ∈ pre, PMap.has r.2 hostname = false) :
    (match lastSeen ((flattenRecords lg).map Prod.snd) with
      | some v =>
        (PushLogData lib lg g).globals.resourceMapperKey = hostnameProperty
        ∧ (PushLogData lib lg g).globals.resourceMapperMap.get hostnameProperty
            = v.StringVal
      | none =>
        (PushLogData lib lg g).globals.resourceMapperKey = g.resourceMapperKey
        ∧ (PushLogData lib lg g).globals.resourceMapperMap = g.resourceMapperMap)
    ∧ ∃ rest, rest.length = post.length
        ∧ fragmentsFrom (Lib.std tbl) (flattenRecords lg2) (PushLogData lib lg g).globals
          = pre.map (fun r => tempPayload (escapedMsg (Lib.std tbl) r.1)
              (PushLogData lib lg g).globals.resourceMapperKey
              ((PushLogData lib lg g).globals.resourceMapperMap.get
                (PushLogData lib lg g).globals.resourceMapperKey)
              (spliceOf (metadataOf r.2))) ++ rest := by
  constructor
  · rw [pushLogData_globals]
    exact stateAfterAll_identity lib (flattenRecords lg) g
  · refine ⟨fragmentsFrom (Lib.std tbl) post
      (stateAfterAll (Lib.std tbl) pre (PushLogData lib lg g).globals), ?_, ?_⟩
    · rw [fragmentsFrom_length]
    · rw [hsplit, fragmentsFrom_append,
        (fragments_without_hostname tbl pre _ _ _ rfl rfl hpre).1]

/-- C16 at a first call for a record under the host `host-a` and a following call for a
record `b` without any attribute, then one under the host `host-c`: the record `b` is
encoded with the identity `host-a`. -/
theorem identity_persists_witness :
    flattenRecords (plainBatch "b".toList
        ++ sampleBatch "host-c".toList "c".toList)
      = [("b".toList, [])] ++ [("c".toList, [(hostname, Value.str "host-c".toList)])]
    ∧ (∀ r ∈ [("b".toList, ([] : PMap))], PMap.has r.2 hostname = false)
    ∧ ∃ rest, rest.length = 1
        ∧ fragmentsFrom (Lib.std (fun _ => false))
            (flattenRecords (plainBatch "b".toList
              ++ sampleBatch "host-c".toList "c".toList))
            (PushLogData (Lib.std (fun _ => false))
              (sampleBatch "host-a".toList "a".toList) Globals.init).globals
          = [tempPayload "b".toList hostnameProperty "host-a".toList
              ",\n\"_lm.logsource_type\":\"logfile\"".toList] ++ rest :=
  ⟨rfl, by decide,
    (identity_persists (Lib.std (fun _ => false)) (fun _ => false)
      (sampleBatch "host-a".toList "a".toList) Globals.init
      (plainBatch "b".toList ++ sampleBatch "host-c".toList "c".toList)
      [("b".toList, [])] [("c".toList, [(hostname, Value.str "host-c".toList)])]
      rfl (by decide)).2⟩

theorem rangeOver_shape (k : Str) (v : Value) (g : Globals) (seen : Option Value)
    (h : identityShape g seen) :
    identityShape (rangeOverAttributesMap k v g) (if k = hostname then some v else seen) := by
  by_cases hk : k = hostname
  · rw [if_pos hk]
    cases seen with
    | none =>
      obtain ⟨_, h2⟩ := h
      simp [identityShape, rangeOverAttributesMap, hk, h2, GoMap.set]
    | some w =>
      obtain ⟨_, h2⟩ := h
      simp [identityShape, rangeOverAttributesMap, hk, h2, GoMap.set]
  · rw [if_neg hk]
    cases seen with
    | none =>
      obtain ⟨h1, h2⟩ := h
      simp [identityShape, rangeOverAttributesMap, hk, h1, h2]
    | some w =>
      obtain ⟨h1, h2⟩ := h
      simp [identityShape, rangeOverAttributesMap, hk, h1, h2]

theorem range_shape (attrs : PMap) (g : Globals) (seen : Option Value)
    (h : identityShape g seen) :
    identityShape (attrs.Range rangeOverAttributesMap g)
      (match PMap.last attrs hostname with
        | some v => some v
        | none => seen) := by
  induction attrs generalizing g seen with
  | nil => exact h
  | cons e rest ih =>
    obtain ⟨a, b⟩ := e
    rw [range_cons]
    have h2 := ih _ _ (rangeOver_shape a b g seen h)
    cases hl : PMap.last rest hostname with
    | some w =>
      rw [hl] at h2
      simpa [PMap.last, hl] using h2
    | none =>
      rw [hl] at h2
      by_cases hk : a = hostname
      · simpa [PMap.last, hl, hk] using h2
      · simpa [PMap.last, hl, hk] using h2

theorem scan_shape (attrs : PMap) (g : Globals) (seen : Option Value)
    (h : identityShape g seen) :
    identityShape (scanAttributes attrs g)
      (match PMap.last attrs hostname with
        | some v => some v
        | none => seen) := by
  unfold scanAttributes
  apply range_shape
  cases seen with
  | none => exact h
  | some w => exact h

theorem runCalls_shape (lib : Lib) (calls : List (Str × Str × PMap)) (g : Globals)
    (seen : Option Value) (h : identityShape g seen) :
    identityShape (runCalls lib calls g)
      (match lastSeen (calls.map (fun c => c.2.2)) with
        | some v => some v
        | none => seen) := by
  induction calls generalizing g seen with
  | nil => exact h
  | cons c rest ih =>
    have hstep : (createPayload lib c.1 c.2.1 c.2.2 g).2 = scanAttributes c.2.2 g := by
      rw [createPayload_state, stateAfter_eq_scan]
    have h2 := ih (scanAttributes c.2.2 g) _ (scan_shape c.2.2 g seen h)
    show identityShape (runCalls lib rest (createPayload lib c.1 c.2.1 c.2.2 g).2) _
    rw [hstep]
    simp only [List.map_cons, lastSeen]
    cases hl : lastSeen (rest.map (fun c => c.2.2)) with
    | some w =>
      rw [hl] at h2
      exact h2
    | none =>
      rw [hl] at h2
      exact h2

theorem lastSeen_append_single (l : List PMap) (a : PMap) :
    lastSeen (l ++ [a]) =
      match PMap.last a hostname with
      | some v => some v
      | none => lastSeen l := by
  induction l with
  | nil =>
    simp only [List.nil_append, lastSeen]
    cases PMap.last a hostname <;> rfl
  | cons b rest ih =>
    show (match lastSeen (rest ++ [a]) with
      | some v => some v
      | none => PMap.last b hostname) = _
    rw [ih]
    cases PMap.last a hostname with
    | some v => rfl
    | none => rfl

theorem hostnameProperty_ne_nil : hostnameProperty ≠ [] := by decide

/-! ### The resource identity object read as JSON -/

theorem stringTail_literal (s rest : Str) (h : ∀ c ∈ s, isLiteralChar c = true) :
    jsonStringTail (s ++ '"' :: rest) = some rest := by
  induction s with
  | nil =>
    rw [List.nil_append, jsonStringTail]
    · simp
    · intros; simp_all
    · intros; simp_all
    · intros; simp_all
  | cons c t ih =>
    have hc := h c (List.mem_cons_self c t)
    simp only [isLiteralChar, decide_eq_true_eq] at hc
    obtain ⟨h1, h2, h3⟩ := hc
    rw [List.cons_append, jsonStringTail]
    · rw [ih (fun d hd => h d (List.mem_cons_of_mem c hd))]
      simp [h1]
      omega
    · intros; simp_all
    · intros; simp_all
    · intros; simp_all

theorem literal_decodes (v : Str) (h : ∀ c ∈ v, isLiteralChar c = true) :
    jsonDecodeString v = some v := by
  apply decode_plain_text
  intro c hc
  have := h c hc
  simpa [isLiteralChar] using this


theorem resourceIdObject_eq (k v : Str) :
    resourceIdObject k v =
      '{' :: '\n' :: '\t' :: '\t' :: '\t' :: '\t' :: '"' ::
        (k ++ '"' :: ':' :: ' ' :: '"' :: (v ++ '"' :: ['\n', '\t', '\t', '\t', '}'])) := by
  simp [resourceIdObject]

theorem memberList_single (value : Str → Option Str) (fuel : Nat) (k v : Str)
    (hk : ∀ c ∈ k, isLiteralChar c = true)
    (hval : value (' ' :: '"' :: (v ++ '"' :: ['\n', '\t', '\t', '\t', '}']))
      = some ['\n', '\t', '\t', '\t', '}']) :
    jsonMemberList value (fuel + 1)
        ('"' :: (k ++ '"' :: ':' :: ' ' :: '"' :: (v ++ '"' :: ['\n', '\t', '\t', '\t', '}'])))
      = some [(k, '"' :: (v ++ ['"']))] := by
  have hkey : List.take ((k ++ '"' :: ':' :: ' ' :: '"' ::
        (v ++ '"' :: ['\n', '\t', '\t', '\t', '}'])).length
        - (':' :: ' ' :: '"' :: (v ++ '"' :: ['\n', '\t', '\t', '\t', '}'])).length - 1)
      (k ++ '"' :: ':' :: ' ' :: '"' :: (v ++ '"' :: ['\n', '\t', '\t', '\t', '}'])) = k := by
    apply List.take_left'
    simp
    omega
  have hraw : List.take (('"' :: (v ++ '"' :: ['\n', '\t', '\t', '\t', '}'])).length
        - ['\n', '\t', '\t', '\t', '}'].length)
      ('"' :: (v ++ '"' :: ['\n', '\t', '\t', '\t', '}'])) = '"' :: (v ++ ['"']) := by
    have : '"' :: (v ++ '"' :: ['\n', '\t', '\t', '\t', '}'])
        = ('"' :: (v ++ ['"'])) ++ ['\n', '\t', '\t', '\t', '}'] := by simp
    rw [this]
    apply List.take_left'
    simp
  have hws1 : skipWs ('"' :: (k ++ '"' :: ':' :: ' ' :: '"' ::
      (v ++ '"' :: ['\n', '\t', '\t', '\t', '}'])))
      = '"' :: (k ++ '"' :: ':' :: ' ' :: '"' :: (v ++ '"' :: ['\n', '\t', '\t', '\t', '}'])) := by
    simp [skipWs]
  have hws2 : skipWs (':' :: ' ' :: '"' :: (v ++ '"' :: ['\n', '\t', '\t', '\t', '}']))
      = ':' :: ' ' :: '"' :: (v ++ '"' :: ['\n', '\t', '\t', '\t', '}']) := by
    simp [skipWs]
  have hws3 : skipWs (' ' :: '"' :: (v ++ '"' :: ['\n', '\t', '\t', '\t', '}']))
      = '"' :: (v ++ '"' :: ['\n', '\t', '\t', '\t', '}']) := by
    simp [skipWs]
  have hws4 : skipWs ['\n', '\t', '\t', '\t', '}'] = ['}'] := by decide
  have hws5 : skipWs ([] : Str) = [] := rfl
  rw [jsonMemberList, hws1]
  simp only [stringTail_literal k _ hk, hkey, literal_decodes k hk, hws2, hval, hws3, hws4,
    hws5, hraw, if_true]

theorem jsonValue_string (fuel : Nat) (v rest : Str) (hv : ∀ c ∈ v, isLiteralChar c = true) :
    jsonValue (fuel + 1) (' ' :: '"' :: (v ++ '"' :: rest)) = some rest := by
  have hws : skipWs (' ' :: '"' :: (v ++ '"' :: rest)) = '"' :: (v ++ '"' :: rest) := by
    simp [skipWs]
  rw [jsonValue, hws]
  exact stringTail_literal v rest hv

/-- Read as JSON, the `_lm.resourceId` object written from a key and a value that need
no escaping has exactly one member: that key, with that value as a string. -/
theorem resourceIdObject_members (k v : Str) (hk : ∀ c ∈ k, isLiteralChar c = true)
    (hv : ∀ c ∈ v, isLiteralChar c = true) :
    jsonObjectMembers (resourceIdObject k v) = some [(k, '"' :: (v ++ ['"']))] := by
  have hws1 : skipWs ('{' :: '\n' :: '\t' :: '\t' :: '\t' :: '\t' :: '"' ::
        (k ++ '"' :: ':' :: ' ' :: '"' :: (v ++ '"' :: ['\n', '\t', '\t', '\t', '}'])))
      = '{' :: '\n' :: '\t' :: '\t' :: '\t' :: '\t' :: '"' ::
        (k ++ '"' :: ':' :: ' ' :: '"' :: (v ++ '"' :: ['\n', '\t', '\t', '\t', '}'])) := by
    simp [skipWs]
  have hws2 : skipWs ('\n' :: '\t' :: '\t' :: '\t' :: '\t' :: '"' ::
        (k ++ '"' :: ':' :: ' ' :: '"' :: (v ++ '"' :: ['\n', '\t', '\t', '\t', '}'])))
      = '"' :: (k ++ '"' :: ':' :: ' ' :: '"' :: (v ++ '"' :: ['\n', '\t', '\t', '\t', '}'])) := by
    simp [skipWs]
  rw [resourceIdObject_eq, jsonObjectMembers, hws1]
  simp only [hws2, List.length_cons]
  exact memberList_single _ _ k v hk (jsonValue_string _ v _ hv)

theorem tempPayload_split (msg key val md : Str) :
    tempPayload msg key val md
      = resourceIdLead msg ++ resourceIdObject key val ++ md ++ "\n\x7d".toList := by
  simp [tempPayload, resourceIdLead, resourceIdObject, msgPrefix]

theorem identityPair_key_literal (seen : Option Value) :
    ∀ c ∈ (identityPair seen).1, isLiteralChar c = true := by
  cases seen with
  | none =>
    intro c hc
    simp [identityPair] at hc
  | some w =>
    show ∀ c ∈ hostnameProperty, isLiteralChar c = true
    decide

/-- C17, refuted as stated: from the initial state, the fragment of a record whose
`hostname` attribute is `h","evil":"1` is a JSON document whose `_lm.resourceId` object
has two members, `system.hostname` with the value `h` and `evil` with the value `1`; it
does not hold the one pair of `system.hostname` and the host name seen. -/
theorem identity_pair_counterexample :
    isValidJSON (fragment (Lib.std (fun _ => false)) "m".toList
        [(hostname, Value.str "h\",\"evil\":\"1".toList)] (runCalls (Lib.std (fun _ => false))
          [] Globals.init)) = true
    ∧ resourceIdMembers (fragment (Lib.std (fun _ => false)) "m".toList
        [(hostname, Value.str "h\",\"evil\":\"1".toList)] (runCalls (Lib.std (fun _ => false))
          [] Globals.init))
      = some [("system.hostname".toList, "\"h\"".toList), ("evil".toList, "\"1\"".toList)]
    ∧ resourceIdMembers (fragment (Lib.std (fun _ => false)) "m".toList
        [(hostname, Value.str "h\",\"evil\":\"1".toList)] (runCalls (Lib.std (fun _ => false))
          [] Globals.init))
      ≠ some [("system.hostname".toList, "\"h\\\",\\\"evil\\\":\\\"1\"".toList)] := by
  decide

/-- C17, amended: after any sequence of `createPayload` calls from the initial state, the
identity key is `""` or `system.hostname`, the identity map has no other key than
`system.hostname`, and the key is `""` exactly when the map is empty: the state is
`("", {})` as long as no `hostname` attribute was seen, and `system.hostname` with the
one-entry map holding the most recently seen value afterwards. The fragment of a further
call writes its `_lm.resourceId` object from the pair of the most recently seen host
name, the call's own attributes included, or from two empty strings; when that host name
has no double quote, backslash or control character, the object read as JSON has
exactly one member, that key with that value. -/
theorem identity_invariant (lib : Lib) (tbl : Char → Bool) (calls : List (Str × Str × PMap))
    (msg : Str) (attrs : PMap) :
    identityShape (runCalls lib calls Globals.init) (lastSeen (calls.map (fun c => c.2.2)))
    ∧ ((runCalls lib calls Globals.init).resourceMapperKey = []
      ∨ (runCalls lib calls Globals.init).resourceMapperKey = hostnameProperty)
    ∧ (∀ kv ∈ (runCalls lib calls Globals.init).resourceMapperMap, kv.1 = hostnameProperty)
    ∧ ((runCalls lib calls Globals.init).resourceMapperKey = []
      ↔ (runCalls lib calls Globals.init).resourceMapperMap = [])
    ∧ fragment (Lib.std tbl) msg attrs (runCalls lib calls Globals.init) =
        resourceIdLead (escapedMsg (Lib.std tbl) msg)
          ++ resourceIdObject
            (identityPair (lastSeen (calls.map (fun c => c.2.2) ++ [attrs]))).1
            (identityPair (lastSeen (calls.map (fun c => c.2.2) ++ [attrs]))).2
          ++ spliceOf (metadataOf attrs) ++ "\n\x7d".toList
    ∧ ((∀ c ∈ (identityPair (lastSeen (calls.map (fun c => c.2.2) ++ [attrs]))).2,
          isLiteralChar c = true) →
        jsonObjectMembers (resourceIdObject
            (identityPair (lastSeen (calls.map (fun c => c.2.2) ++ [attrs]))).1
            (identityPair (lastSeen (calls.map (fun c => c.2.2) ++ [attrs]))).2)
          = some [((identityPair (lastSeen (calls.map (fun c => c.2.2) ++ [attrs]))).1,
              '"' :: ((identityPair (lastSeen (calls.map (fun c => c.2.2) ++ [attrs]))).2
                ++ ['"']))]
        ∧ jsonDecodeString (identityPair (lastSeen (calls.map (fun c => c.2.2) ++ [attrs]))).2
          = some (identityPair (lastSeen (calls.map (fun c => c.2.2) ++ [attrs]))).2) := by
  have hshape : identityShape (runCalls lib calls Globals.init)
      (lastSeen (calls.map (fun c => c.2.2))) := by
    have h := runCalls_shape lib calls Globals.init none ⟨rfl, rfl⟩
    cases hl : lastSeen (calls.map (fun c => c.2.2)) with
    | some w =>
      rw [hl] at h
      exact h
    | none =>
      rw [hl] at h
      exact h
  have hscan := scan_shape attrs _ _ hshape
  rw [← lastSeen_append_single] at hscan
  refine ⟨hshape, ?_, ?_, ?_, ?_, ?_⟩
  · cases hl : lastSeen (calls.map (fun c => c.2.2)) with
    | none =>
      rw [hl] at hshape
      exact Or.inl hshape.1
    | some w =>
      rw [hl] at hshape
      exact Or.inr hshape.1
  · cases hl : lastSeen (calls.map (fun c => c.2.2)) with
    | none =>
      rw [hl] at hshape
      rw [hshape.2]
      intro kv hkv
      simp at hkv
    | some w =>
      rw [hl] at hshape
      rw [hshape.2]
      intro kv hkv
      simp at hkv
      rw [hkv]
  · cases hl : lastSeen (calls.map (fun c => c.2.2)) with
    | none =>
      rw [hl] at hshape
      simp [hshape.1, hshape.2]
    | some w =>
      rw [hl] at hshape
      simp [hshape.1, hshape.2, hostnameProperty_ne_nil]
  · rw [← tempPayload_split, fragment_std, scan_metadata_eq]
    cases hl : lastSeen (calls.map (fun c => c.2.2) ++ [attrs]) with
    | none =>
      rw [hl] at hscan
      rw [hscan.1, hscan.2]
      rfl
    | some w =>
      rw [hl] at hscan
      rw [hscan.1, hscan.2]
      simp [identityPair, GoMap.get]
  · intro hv
    exact ⟨resourceIdObject_members _ _ (identityPair_key_literal _) hv,
      literal_decodes _ hv⟩

/-- C17 amended, after one call for a record under the host `host-01`, at a further
record without attributes: the value needs no escaping, the object has the one member
`system.hostname` with the value `host-01`, also when read from the fragment itself. -/
theorem identity_invariant_witness :
    (∀ c ∈ (identityPair (lastSeen ([("a".toList, ([] : Str),
          [(hostname, Value.str "host-01".toList)])].map (fun c => c.2.2) ++ [[]]))).2,
        isLiteralChar c = true)
    ∧ jsonObjectMembers (resourceIdObject hostnameProperty "host-01".toList)
        = some [(hostnameProperty, "\"host-01\"".toList)]
    ∧ resourceIdMembers (fragment (Lib.std (fun _ => false)) "m".toList []
        (runCalls (Lib.std (fun _ => false))
          [("a".toList, [], [(hostname, Value.str "host-01".toList)])] Globals.init))
      = some [(hostnameProperty, "\"host-01\"".toList)] :=
  ⟨by decide,
    ((identity_invariant (Lib.std (fun _ => false)) (fun _ => false)
      [("a".toList, [], [(hostname, Value.str "host-01".toList)])] "m".toList []).2.2.2.2.2
      (by decide)).1,
    by decide⟩

/-! ### Two calls on the shared package state -/

/-- The two halves of `createPayload`: the scan, then the rest from the state it left. -/
theorem createPayload_eq_finish (lib : Lib) (msg payload : Str) (attrs : PMap)
    (g : Globals) :
    createPayload lib msg payload attrs g
      = (finishPayload lib msg payload (scanAttributes attrs g), scanAttributes attrs g) := by
  simp only [createPayload, finishPayload]
  split <;> rfl

/-- A call stepped on its own, two steps per record, does what the loops of
`PushLogData` do. -/
theorem runAlone_eq_foldl (lib : Lib) (recs : List (Str × PMap)) (p : Str) (g : Globals) :
    runAlone lib (2 * recs.length) (⟨recs, none, p⟩, g)
      = (⟨[], none,
          (recs.foldl (fun acc r => createPayload lib r.1 acc.1 r.2 acc.2) (p, g)).1⟩,
        (recs.foldl (fun acc r => createPayload lib r.1 acc.1 r.2 acc.2) (p, g)).2) := by
  induction recs generalizing p g with
  | nil => rfl
  | cons r rest ih =>
    have hlen : 2 * (r :: rest).length = (2 * rest.length + 1) + 1 := by
      simp only [List.length_cons]
      omega
    rw [hlen]
    show runAlone lib (2 * rest.length)
      (⟨rest, none, finishPayload lib r.1 p (scanAttributes r.2 g)⟩, scanAttributes r.2 g) = _
    rw [ih, List.foldl_cons, createPayload_eq_finish]

/-- A call of `PushLogData` that runs undisturbed hands to `export` the payload of the
stepped call. -/
theorem runAlone_result (lib : Lib) (lg : Logs) (g : Globals) :
    (runAlone lib (2 * (flattenRecords lg).length) (Call.start lg, g)).1.result
      = (PushLogData lib lg g).payload := by
  unfold Call.start
  rw [runAlone_eq_foldl]
  unfold PushLogData Call.result
  simp only [loops_eq_foldl]

/-- C15 at two calls, one for a record `a` under the host `host-a` and one for a record
`b` under the host `host-b`, from the initial state. When the first call runs to its end
before the second starts, its payload carries `host-a`. When the second call runs
between the first call's scan (lines 114-121) and its assembly of the fragment (lines
122-146), the first call's payload carries the identity `host-b` of the second call. -/
theorem interleaved_calls_cross_contaminate :
    (runTwo (Lib.std (fun _ => false)) [false, false, true, true]
        (Call.start (sampleBatch "host-a".toList "a".toList),
          Call.start (sampleBatch "host-b".toList "b".toList), Globals.init)).1.result
      = "[\n".toList ++ tempPayload "a".toList hostnameProperty "host-a".toList
          ",\n\"_lm.logsource_type\":\"logfile\",\"hostname\":\"host-a\"".toList
          ++ "]\n".toList
    ∧ (runTwo (Lib.std (fun _ => false)) [false, true, true, false]
        (Call.start (sampleBatch "host-a".toList "a".toList),
          Call.start (sampleBatch "host-b".toList "b".toList), Globals.init)).1.result
      = "[\n".toList ++ tempPayload "a".toList hostnameProperty "host-b".toList
          ",\n\"_lm.logsource_type\":\"logfile\",\"hostname\":\"host-b\"".toList
          ++ "]\n".toList
    ∧ (runTwo (Lib.std (fun _ => false)) [false, true, true, false]
        (Call.start (sampleBatch "host-a".toList "a".toList),
          Call.start (sampleBatch "host-b".toList "b".toList), Globals.init)).2.1.result
      = "[\n".toList ++ tempPayload "b".toList hostnameProperty "host-b".toList
          ",\n\"_lm.logsource_type\":\"logfile\",\"hostname\":\"host-b\"".toList
          ++ "]\n".toList := by
  decide

end LMExporter
